import Mathlib

/-!
Verification development for the `launchpad_addr::launchpad` Move module of the
aptos-nft-studio repository: a minting/registry engine for composable,
evolvable NFTs.  The module is shallowly embedded: Move strings become lists
of characters, object/account addresses become natural numbers, global
resources become fields of an explicit `State` record, and every entry
function becomes a Lean function `... → State → Except Err ...`.  A Move
`abort` rolls the whole transaction back, so an `Except.error` result stands
for "the operation failed and the state is unchanged"; the `exec` wrapper
below makes that reading explicit.

The launchpad module depends on the external `minter::mint_stage` module
(stage storage and earliest-eligible-stage selection) and on the Aptos
token-objects framework (fixed-supply enforcement inside `token::create`,
`token::burn`, royalty storage).  Those collaborators are not part of the
repository; where their behaviour decides a claim they are modelled from the
specification's description of them, and each such definition says so in its
doc comment.
-/

namespace Launchpad

/-- Move `String`, modelled as its list of characters. -/
abbrev Str := List Char

/-- Account / object addresses, modelled as natural numbers. -/
abbrev Addr := Nat

/-! ### Error conditions

The launchpad module aborts with the numbered codes below (its `const`
declarations).  Aborts raised inside the framework or the minter dependency
are represented by dedicated constructors. -/

/-- Outcome of a failed operation: either a launchpad `assert!` with its
numeric abort code, or an abort coming from the substrate (a
`borrow_global`/`move_from` on an absent resource, a `simple_map::borrow` on
an absent key, the fixed-supply bound of the token framework, or a coin
transfer with insufficient funds). -/
inductive Err where
  | abort (code : Nat)
  | missingResource
  | keyNotFound
  | supplyExceeded
  | insufficientBalance
  deriving DecidableEq

deriving instance DecidableEq for Except

def EONLY_ADMIN_CAN_UPDATE_CREATOR : Nat := 1
def EONLY_ADMIN_CAN_SET_PENDING_ADMIN : Nat := 2
def ENOT_PENDING_ADMIN : Nat := 3
def EONLY_ADMIN_CAN_UPDATE_MINT_FEE_COLLECTOR : Nat := 4
def ENO_ACTIVE_STAGES : Nat := 6
def EAT_LEAST_ONE_STAGE_IS_REQUIRED : Nat := 7
def ESTART_TIME_MUST_BE_SET_FOR_STAGE : Nat := 8
def EEND_TIME_MUST_BE_SET_FOR_STAGE : Nat := 9
def EMINT_LIMIT_PER_ADDR_MUST_BE_SET_FOR_STAGE : Nat := 10
def EINCORRECT_COMBINATION : Nat := 11
def EINCORRECT_EVOLUTION : Nat := 12
def EDUPLICATE_COMBINATION : Nat := 13
def EDUPLICATE_EVOLUTION : Nat := 14

/-- Default mint fee per NFT (oapt). -/
def DEFAULT_MINT_FEE_PER_NFT : Nat := 0

/-- 100 years in seconds; a public stage with no end time ends this long
after its start. -/
def ONE_HUNDRED_YEARS_IN_SECONDS : Nat := 100 * 365 * 24 * 60 * 60

/-- Category name of the allowlist mint stage. -/
def ALLOWLIST_MINT_STAGE_CATEGORY : Str := "Allowlist mint stage".data

/-- Category name of the public mint stage. -/
def PUBLIC_MINT_MINT_STAGE_CATEGORY : Str := "Public mint stage".data

/-! ### Association-list primitives

`SimpleMap` and the per-address tables are embedded as association lists. -/

/-- Lookup in an association list (first matching key wins). -/
def alookup {β : Type} : List (Addr × β) → Addr → Option β
  | [], _ => none
  | (k, v) :: rest, a => if k = a then some v else alookup rest a

/-- Lookup in a string-keyed association list. -/
def slookup {β : Type} : List (Str × β) → Str → Option β
  | [], _ => none
  | (k, v) :: rest, a => if k = a then some v else slookup rest a

/-- Insert-or-replace in an association list (`simple_map::upsert`). -/
def aupdate {β : Type} : List (Addr × β) → Addr → β → List (Addr × β)
  | [], k, v => [(k, v)]
  | (k', v') :: rest, k, v =>
      if k' = k then (k, v) :: rest else (k', v') :: aupdate rest k v

/-- Insert-or-replace in a string-keyed association list. -/
def supdate {β : Type} : List (Str × β) → Str → β → List (Str × β)
  | [], k, v => [(k, v)]
  | (k', v') :: rest, k, v =>
      if k' = k then (k, v) :: rest else (k', v') :: supdate rest k v

/-- Lookup in an association list with compound keys (`simple_map` keyed by a
rule structure). -/
def rlookup {κ β : Type} [DecidableEq κ] : List (κ × β) → κ → Option β
  | [], _ => none
  | (k, v) :: rest, a => if k = a then some v else rlookup rest a

/-- Remove a key from an association list (`move_from` of a resource; the
maps are key-unique by construction, so removing every occurrence of the key
coincides with removing the resource). -/
def aerase {β : Type} : List (Addr × β) → Addr → List (Addr × β)
  | [], _ => []
  | p :: rest, k => if p.1 = k then aerase rest k else p :: aerase rest k

/-! ### Data model -/

/-- Royalty resource of the token-objects framework: `royalty::create(num,
100, payee)` as built by the module's `royalty` helper. -/
structure Royalty where
  numerator : Nat
  denominator : Nat
  payee_address : Addr
  deriving DecidableEq, Inhabited

/-- One mint stage of a collection.  Modelled from the spec: the
`minter::mint_stage` dependency stores, per stage, a name (category), a
`[start, end)` time window, an optional allowlist mapping each enumerated
address to its mint cap, an optional public per-address cap, and a
per-address counter of NFTs already minted in the stage. -/
structure MintStage where
  category : Str
  startTime : Nat
  endTime : Nat
  allowlist : Option (List (Addr × Nat))
  maxPerUser : Option Nat
  mintBalances : List (Addr × Nat)
  deriving DecidableEq, Inhabited

/-- Ghost tag recording which operation created a token.  Not part of the
Move state; used only to state which tokens were produced by `mint_nft`
rather than by `combine_nft` / `evolve_nft`. -/
inductive Origin where
  | mint
  | combine
  | evolve
  deriving DecidableEq, Inhabited

/-- A live token object together with the resources at its address.
`hasController` records whether a launchpad `TokenController` resource
(burn/mutate/extend refs) is stored at the token address; `origin` is a
ghost field (see `Origin`). -/
structure TokenData where
  collection : Addr
  name : Str
  description : Str
  uri : Str
  royalty : Option Royalty
  owner : Addr
  hasController : Bool
  origin : Origin
  deriving DecidableEq, Inhabited

/-- A collection object together with the per-collection resources stored at
its address: the framework collection data (name, description, URI, fixed
maximum supply, live supply, royalty), the mint stages and the
`CollectionConfig` fee table, the `CollectionNftCounter` (`nfts`), and the
`CombinationRules` / `EvolutionRules` maps.  A combination-rule key is the
ordered quadruple (main collection, main token name, secondary collection,
secondary token name); an evolution-rule key is (main collection, main token
name). -/
structure Collection where
  ownerObj : Addr
  name : Str
  description : Str
  uri : Str
  maxSupply : Nat
  royalty : Option Royalty
  currentSupply : Nat
  stages : List MintStage
  mint_fee_per_nft_by_stages : List (Str × Nat)
  nfts : Nat
  combinationRules : List ((Addr × Str × Addr × Str) × Str)
  evolutionRules : List ((Addr × Str) × Str)
  deriving DecidableEq, Inhabited

/-- The global `Config` resource. -/
structure Config where
  creator_addr : Addr
  admin_addr : Addr
  pending_admin_addr : Option Addr
  mint_fee_collector_addr : Addr
  deriving DecidableEq

/-- Events emitted by the module. -/
inductive Event where
  | createCollectionEvent (creator_addr collection_owner_obj collection_obj : Addr)
      (max_supply : Nat) (name description uri : Str)
      (allowlist : Option (List Addr))
      (allowlist_start_time allowlist_end_time
        allowlist_mint_limit_per_addr allowlist_mint_fee_per_nft : Option Nat)
      (public_mint_start_time public_mint_end_time
        public_mint_limit_per_addr public_mint_fee_per_nft : Option Nat)
  | batchMintNftsEvent (collection_obj : Addr) (nft_objs : List Addr)
      (recipient_addr : Addr) (total_mint_fee : Nat)
  | combineNftsEvent (old_nft_objs : List Addr) (new_nft_obj recipient_addr : Addr)
  | evolveNftEvent (old_nft_obj new_nft_obj recipient_addr : Addr)
  deriving DecidableEq

/-- The whole on-chain state touched by the module: the `Registry`, every
collection (keyed by collection-object address), every live token (keyed by
token-object address), the global `Config`, coin balances, a fresh-address
counter for object creation, the clock, and the emitted-event log. -/
structure State where
  registry : List Addr
  collections : List (Addr × Collection)
  tokens : List (Addr × TokenData)
  config : Config
  balances : List (Addr × Nat)
  nextAddr : Addr
  now : Nat
  events : List Event
  deriving DecidableEq

/-- `init_module`: empty registry, config with the deployer as admin and fee
collector and `@initial_creator_addr` as creator. -/
def init_module (deployer initial_creator_addr : Addr) : State :=
  { registry := []
    collections := []
    tokens := []
    config :=
      { creator_addr := initial_creator_addr
        admin_addr := deployer
        pending_admin_addr := none
        mint_fee_collector_addr := deployer }
    balances := []
    nextAddr := 1
    now := 0
    events := [] }

/-! ### Mint-stage engine

The `minter::mint_stage` dependency is not part of the repository; the
definitions in this section are modelled from the spec (section 4.2): stages
are stored in ascending start-time order, a stage is active when its
`[start, end)` window contains the clock, and mint execution picks the
earliest active stage whose per-address constraints the caller satisfies,
incrementing that stage's per-address counter. -/

/-- Modelled from the spec: the minter mint-stage module keeps a collection's
stages sorted in ascending start-time order; `mint_stage::create` inserts a
new stage keeping that order. -/
def insertStageSorted (s : MintStage) : List MintStage → List MintStage
  | [] => [s]
  | t :: rest =>
      if s.startTime ≤ t.startTime then s :: t :: rest
      else t :: insertStageSorted s rest

/-- A stage is active when its half-open time window contains the clock. -/
def stageActive (s : MintStage) (now : Nat) : Bool :=
  s.startTime ≤ now && now < s.endTime

/-- The names of a collection's stages, in stored (ascending start-time)
order (`mint_stage::stages`). -/
def stageNames (c : Collection) : List Str :=
  c.stages.map (·.category)

/-- Modelled from the spec: index of the earliest currently-active mint
stage, if any (the minter view the launchpad calls `ccurent_active_stage`). -/
def ccurent_active_stage (c : Collection) (now : Nat) : Option Nat :=
  c.stages.findIdx? (fun s => stageActive s now)

/-- `mint_stage::find_mint_stage_by_index`. -/
def find_mint_stage_by_index (c : Collection) (i : Nat) : Option MintStage :=
  c.stages.get? i

/-- `mint_stage::find_mint_stage_index_by_name`. -/
def find_mint_stage_index_by_name (c : Collection) (nm : Str) : Option Nat :=
  c.stages.findIdx? (fun s => s.category = nm)

/-- NFTs the user has already minted in a stage. -/
def stageBalance (s : MintStage) (user : Addr) : Nat :=
  (alookup s.mintBalances user).getD 0

/-- Modelled from the spec: the per-address constraints of a stage are
satisfied for a caller minting `amount` NFTs when the caller is on the
allowlist and stays within its cap (allowlist stage), or stays within the
public per-address cap (public stage). -/
def stageEligible (s : MintStage) (user : Addr) (amount : Nat) : Bool :=
  match s.allowlist with
  | some al =>
      match alookup al user with
      | some cap => stageBalance s user + amount ≤ cap
      | none => false
  | none =>
      match s.maxPerUser with
      | some cap => stageBalance s user + amount ≤ cap
      | none => true

/-- Replace the element at an index of a list. -/
def modifyIdx {α : Type} (f : α → α) : Nat → List α → List α
  | _, [] => []
  | 0, a :: rest => f a :: rest
  | n + 1, a :: rest => a :: modifyIdx f n rest

/-- Record `amount` freshly minted NFTs for a user in a stage. -/
def stageRecordMint (user : Addr) (amount : Nat) (s : MintStage) : MintStage :=
  { s with mintBalances := aupdate s.mintBalances user (stageBalance s user + amount) }

/-- Modelled from the spec: `mint_stage::execute_earliest_stage` scans the
stages in ascending start-time order, executes the first one that is active
and whose per-address constraints the caller satisfies (incrementing its
per-address counter by the amount), and returns its index; returns `none`
when no stage qualifies. -/
def execute_earliest_stage (user : Addr) (c : Collection) (amount : Nat)
    (now : Nat) : Option (Nat × Collection) :=
  match c.stages.findIdx? (fun s => stageActive s now && stageEligible s user amount) with
  | some i => some (i, { c with stages := modifyIdx (stageRecordMint user amount) i c.stages })
  | none => none

/-! ### Token-objects framework

`token::create` on a fixed-supply collection increments the live supply and
aborts when it would exceed the maximum; `token::burn` removes the token and
decrements the live supply. -/

/-- Supply increment performed inside `token::create` for a fixed-supply
collection: aborts once the live supply would exceed the maximum. -/
def collectionIncrementSupply (c : Collection) : Except Err Collection :=
  if c.currentSupply + 1 ≤ c.maxSupply then
    .ok { c with currentSupply := c.currentSupply + 1 }
  else .error .supplyExceeded

/-- Extract the `TokenController` stored at a token address and burn the
token (`move_from<TokenController>` followed by `token::burn`): aborts when
no such resource exists at the address, otherwise removes the token and
decrements its collection's live supply.  (Move u64 subtraction would abort
on underflow; the framework keeps the live supply equal to the number of
live tokens of the collection, so the decrement here never underflows.) -/
def burnWithController (tokenAddr : Addr) (st : State) : Except Err State :=
  match alookup st.tokens tokenAddr with
  | none => .error .missingResource
  | some t =>
      if t.hasController then
        match alookup st.collections t.collection with
        | none => .error .missingResource
        | some c =>
            .ok { st with
                  tokens := aerase st.tokens tokenAddr
                  collections := aupdate st.collections t.collection
                    { c with currentSupply := c.currentSupply - 1 } }
      else .error .missingResource

/-! ### Views -/

/-- `get_registry`. -/
def get_registry (st : State) : List Addr :=
  st.registry

/-- `get_mint_fee`: `amount * fee[stage_name]`; the `simple_map::borrow`
aborts when the stage is unknown. -/
def get_mint_fee (c : Collection) (stage_name : Str) (amount : Nat) :
    Except Err Nat :=
  match slookup c.mint_fee_per_nft_by_stages stage_name with
  | some fee => .ok (amount * fee)
  | none => .error .keyNotFound

/-- `get_active_or_next_mint_stage`: the name of the currently active stage
if one exists; otherwise the first stage name (scanning the stored order)
whose start time is still in the future; otherwise `none`. -/
def get_active_or_next_mint_stage (c : Collection) (now : Nat) : Option Str :=
  match ccurent_active_stage c now with
  | some idx => (find_mint_stage_by_index c idx).map (·.category)
  | none =>
      (stageNames c).find? (fun nm =>
        match find_mint_stage_index_by_name c nm with
        | some i =>
            match find_mint_stage_by_index c i with
            | some s => decide (now < s.startTime)
            | none => false
        | none => false)

/-- `get_mint_stage_start_and_end_time`. -/
def get_mint_stage_start_and_end_time (c : Collection) (stage_name : Str) :
    Option (Nat × Nat) :=
  match find_mint_stage_index_by_name c stage_name with
  | some idx => (find_mint_stage_by_index c idx).map (fun s => (s.startTime, s.endTime))
  | none => none

/-- `get_number_active_nfts`: the `CollectionNftCounter.nfts` value stored at
the collection address (`borrow_global` aborts when the collection does not
exist, hence the `Option`). -/
def get_number_active_nfts (st : State) (collection_obj : Addr) : Option Nat :=
  (alookup st.collections collection_obj).map (·.nfts)

/-! ### Helpers of the launchpad module -/

/-- `is_admin`.  (The fallback accepting the owner of the publishing object
applies only to object deployments and is not modelled.) -/
def is_admin (config : Config) (sender : Addr) : Bool :=
  sender = config.admin_addr

/-- `is_creator`. -/
def is_creator (config : Config) (sender : Addr) : Bool :=
  sender = config.creator_addr

/-- Coin transfer (`aptos_account::transfer`): aborts when the source balance
is insufficient. -/
def coinTransfer (src dst : Addr) (amt : Nat) (st : State) : Except Err State :=
  let bsrc := (alookup st.balances src).getD 0
  if amt ≤ bsrc then
    let b1 := aupdate st.balances src (bsrc - amt)
    .ok { st with balances := aupdate b1 dst ((alookup b1 dst).getD 0 + amt) }
  else .error .insufficientBalance

/-- `pay_for_mint`: a zero fee is a no-op, otherwise transfer the fee to the
mint-fee collector. -/
def pay_for_mint (sender : Addr) (mint_fee : Nat) (st : State) : Except Err State :=
  if mint_fee > 0 then coinTransfer sender st.config.mint_fee_collector_addr mint_fee st
  else .ok st

/-- The `royalty` helper: `some num` becomes `royalty::create(num, 100,
admin_addr)`. -/
def royaltyOf (royalty_numerator : Option Nat) (admin_addr : Addr) : Option Royalty :=
  match royalty_numerator with
  | some num => some { numerator := num, denominator := 100, payee_address := admin_addr }
  | none => none

/-- `construct_nft_metadata_uri`: drop the trailing `collection.json` piece
of the collection URI (a sub-string up to `length − 15`; Move u64
subtraction would abort when the URI is shorter, which the truncating `Nat`
subtraction mirrors only for the in-bounds cases used here) and append
`<id>.json`. -/
def construct_nft_metadata_uri (collection_uri : Str) (next_nft_id : Nat) : Str :=
  collection_uri.take (collection_uri.length - ("collection.json".data).length)
    ++ (Nat.repr next_nft_id).data ++ ".json".data

/-! ### Entry functions -/

/-- `add_allowlist_stage`: asserts that start time, end time and per-address
mint limit are all present, creates the allowlist stage (each allowlisted
address capped at the limit) and records its fee (defaulting to
`DEFAULT_MINT_FEE_PER_NFT`). -/
def add_allowlist_stage (c : Collection) (allowlist : List Addr)
    (allowlist_start_time allowlist_end_time
      allowlist_mint_limit_per_addr allowlist_mint_fee_per_nft : Option Nat) :
    Except Err Collection :=
  match allowlist_start_time with
  | none => .error (.abort ESTART_TIME_MUST_BE_SET_FOR_STAGE)
  | some startT =>
      match allowlist_end_time with
      | none => .error (.abort EEND_TIME_MUST_BE_SET_FOR_STAGE)
      | some endT =>
          match allowlist_mint_limit_per_addr with
          | none => .error (.abort EMINT_LIMIT_PER_ADDR_MUST_BE_SET_FOR_STAGE)
          | some limit =>
              let stage : MintStage :=
                { category := ALLOWLIST_MINT_STAGE_CATEGORY
                  startTime := startT
                  endTime := endT
                  allowlist := some (allowlist.map (fun a => (a, limit)))
                  maxPerUser := none
                  mintBalances := [] }
              .ok { c with
                    stages := insertStageSorted stage c.stages
                    mint_fee_per_nft_by_stages :=
                      supdate c.mint_fee_per_nft_by_stages ALLOWLIST_MINT_STAGE_CATEGORY
                        (allowlist_mint_fee_per_nft.getD DEFAULT_MINT_FEE_PER_NFT) }

/-- `add_public_mint_stage`: asserts the per-address mint limit is present,
creates the public stage (end time defaulting to start + 100 years) and
records its fee. -/
def add_public_mint_stage (c : Collection) (public_mint_start_time : Nat)
    (public_mint_end_time public_mint_limit_per_addr public_mint_fee_per_nft :
      Option Nat) : Except Err Collection :=
  match public_mint_limit_per_addr with
  | none => .error (.abort EMINT_LIMIT_PER_ADDR_MUST_BE_SET_FOR_STAGE)
  | some limit =>
      let stage : MintStage :=
        { category := PUBLIC_MINT_MINT_STAGE_CATEGORY
          startTime := public_mint_start_time
          endTime := public_mint_end_time.getD
            (ONE_HUNDRED_YEARS_IN_SECONDS + public_mint_start_time)
          allowlist := none
          maxPerUser := some limit
          mintBalances := [] }
      .ok { c with
            stages := insertStageSorted stage c.stages
            mint_fee_per_nft_by_stages :=
              supdate c.mint_fee_per_nft_by_stages PUBLIC_MINT_MINT_STAGE_CATEGORY
                (public_mint_fee_per_nft.getD DEFAULT_MINT_FEE_PER_NFT) }

/-- `create_collection`: creates the owner object and the collection object
(two fresh addresses), initialises the per-collection resources
(`CollectionConfig`, `CombinationRules`, `EvolutionRules`,
`CollectionNftCounter`), asserts that an allowlist or a public start time is
supplied, adds the requested stages, registers the collection and emits the
creation event.  Any abort rolls the whole transaction back. -/
def create_collection (sender : Addr) (description name uri : Str)
    (max_supply : Nat) (royalty_percentage : Option Nat)
    (allowlist : Option (List Addr))
    (allowlist_start_time allowlist_end_time
      allowlist_mint_limit_per_addr allowlist_mint_fee_per_nft : Option Nat)
    (public_mint_start_time public_mint_end_time
      public_mint_limit_per_addr public_mint_fee_per_nft : Option Nat)
    (st : State) : Except Err (State × Addr) :=
  let collection_owner_obj := st.nextAddr
  let collection_obj := st.nextAddr + 1
  let c0 : Collection :=
    { ownerObj := collection_owner_obj
      name := name
      description := description
      uri := uri
      maxSupply := max_supply
      royalty := royaltyOf royalty_percentage sender
      currentSupply := 0
      stages := []
      mint_fee_per_nft_by_stages := []
      nfts := 0
      combinationRules := []
      evolutionRules := [] }
  if allowlist.isSome || public_mint_start_time.isSome then
    let afterAllowlist : Except Err Collection :=
      match allowlist with
      | some al =>
          add_allowlist_stage c0 al allowlist_start_time allowlist_end_time
            allowlist_mint_limit_per_addr allowlist_mint_fee_per_nft
      | none => .ok c0
    match afterAllowlist with
    | .error e => .error e
    | .ok c1 =>
        let afterPublic : Except Err Collection :=
          match public_mint_start_time with
          | some startT =>
              add_public_mint_stage c1 startT public_mint_end_time
                public_mint_limit_per_addr public_mint_fee_per_nft
          | none => .ok c1
        match afterPublic with
        | .error e => .error e
        | .ok c2 =>
            .ok ({ st with
                   collections := (collection_obj, c2) :: st.collections
                   registry := st.registry ++ [collection_obj]
                   nextAddr := st.nextAddr + 2
                   events := st.events ++
                     [Event.createCollectionEvent sender collection_owner_obj
                       collection_obj max_supply name description uri allowlist
                       allowlist_start_time allowlist_end_time
                       allowlist_mint_limit_per_addr allowlist_mint_fee_per_nft
                       public_mint_start_time public_mint_end_time
                       public_mint_limit_per_addr public_mint_fee_per_nft] },
                 collection_obj)
  else .error (.abort EAT_LEAST_ONE_STAGE_IS_REQUIRED)

/-- `mint_nft_internal`: reads the collection resources, allocates the next
sequential id (`CollectionNftCounter.nfts + 1`), builds the metadata URI
from the collection URI, creates the token (description placeholder is the
decimal string of the id, royalty read from the collection), stores a
`TokenController` at the token address, increments the counter and transfers
the token to the recipient. -/
def mint_nft_internal (token_name : Str) (sender_addr : Addr)
    (collection_obj : Addr) (st : State) : Except Err (State × Addr) :=
  match alookup st.collections collection_obj with
  | none => .error .missingResource
  | some c =>
      let next_nft_id := c.nfts + 1
      let nft_metadata_uri := construct_nft_metadata_uri c.uri next_nft_id
      match collectionIncrementSupply c with
      | .error e => .error e
      | .ok c1 =>
          let nft_obj := st.nextAddr
          let tok : TokenData :=
            { collection := collection_obj
              name := token_name
              description := (Nat.repr next_nft_id).data
              uri := nft_metadata_uri
              royalty := c.royalty
              owner := sender_addr
              hasController := true
              origin := .mint }
          .ok ({ st with
                 collections := aupdate st.collections collection_obj
                   { c1 with nfts := c1.nfts + 1 }
                 tokens := (nft_obj, tok) :: st.tokens
                 nextAddr := st.nextAddr + 1 },
               nft_obj)

/-- The `for (i in 0..amount)` loop of `mint_nft`. -/
def mintLoop (token_name : Str) (sender_addr collection_obj : Addr) :
    Nat → State → List Addr → Except Err (State × List Addr)
  | 0, st, acc => .ok (st, acc)
  | n + 1, st, acc =>
      match mint_nft_internal token_name sender_addr collection_obj st with
      | .error e => .error e
      | .ok (st1, nft_obj) =>
          mintLoop token_name sender_addr collection_obj n st1 (acc ++ [nft_obj])

/-- `mint_nft`: execute the earliest eligible stage (abort with
`ENO_ACTIVE_STAGES` when none qualifies), compute and pay the fee, mint
`amount` NFTs and emit the batch event. -/
def mint_nft (sender : Addr) (token_name : Str) (collection_obj : Addr)
    (amount : Nat) (st : State) : Except Err (State × List Addr) :=
  match alookup st.collections collection_obj with
  | none => .error .missingResource
  | some c =>
      match execute_earliest_stage sender c amount st.now with
      | none => .error (.abort ENO_ACTIVE_STAGES)
      | some (stage_idx, c1) =>
          match find_mint_stage_by_index c1 stage_idx with
          | none => .error .missingResource
          | some stage_obj =>
              let stage_name := stage_obj.category
              match get_mint_fee c1 stage_name amount with
              | .error e => .error e
              | .ok total_mint_fee =>
                  let st1 := { st with
                    collections := aupdate st.collections collection_obj c1 }
                  match pay_for_mint sender total_mint_fee st1 with
                  | .error e => .error e
                  | .ok st2 =>
                      match mintLoop token_name sender collection_obj amount st2 [] with
                      | .error e => .error e
                      | .ok (st3, nft_objs) =>
                          .ok ({ st3 with
                                 events := st3.events ++
                                   [Event.batchMintNftsEvent collection_obj nft_objs
                                     sender total_mint_fee] },
                               nft_objs)

/-- `combine_nft`: reads the main collection's resources and the two input
tokens, looks the ordered rule key up in the main collection's
`CombinationRules` (abort `EINCORRECT_COMBINATION` when absent), creates the
result token in the main collection from the main token's description and
URI and the collection's current royalty, transfers it to the caller, burns
the main and the secondary token via their `TokenController`s, and emits the
combine event.  In the source the result token receives only the minter
framework refs, not a launchpad `TokenController`. -/
def combine_nft (sender main_collection_obj secondary_collection_obj
    main_nft secondary_nft : Addr) (st : State) : Except Err (State × Addr) :=
  match alookup st.collections main_collection_obj with
  | none => .error .missingResource
  | some mainC =>
      match alookup st.tokens main_nft with
      | none => .error .missingResource
      | some mainTok =>
          match alookup st.tokens secondary_nft with
          | none => .error .missingResource
          | some secTok =>
              let main_uri := mainTok.uri
              let description := mainTok.description
              let combination :=
                (main_collection_obj, mainTok.name,
                  secondary_collection_obj, secTok.name)
              match rlookup mainC.combinationRules combination with
              | none => .error (.abort EINCORRECT_COMBINATION)
              | some result_token =>
                  match collectionIncrementSupply mainC with
                  | .error e => .error e
                  | .ok mainC1 =>
                      let nft_obj := st.nextAddr
                      let newTok : TokenData :=
                        { collection := main_collection_obj
                          name := result_token
                          description := description
                          uri := main_uri
                          royalty := mainC.royalty
                          owner := sender
                          hasController := false
                          origin := .combine }
                      let st1 := { st with
                        collections := aupdate st.collections main_collection_obj mainC1
                        tokens := (nft_obj, newTok) :: st.tokens
                        nextAddr := st.nextAddr + 1 }
                      match burnWithController main_nft st1 with
                      | .error e => .error e
                      | .ok st2 =>
                          match burnWithController secondary_nft st2 with
                          | .error e => .error e
                          | .ok st3 =>
                              .ok ({ st3 with
                                     events := st3.events ++
                                       [Event.combineNftsEvent
                                         [main_nft, secondary_nft] nft_obj sender] },
                                   nft_obj)

/-- `evolve_nft`: like `combine_nft` with a single input token; the rule key
is (main collection, main token name), the failure condition is
`EINCORRECT_EVOLUTION`, only the main token is burned, and the result token
again receives no launchpad `TokenController`. -/
def evolve_nft (sender main_collection main_nft : Addr) (st : State) :
    Except Err (State × Addr) :=
  match alookup st.collections main_collection with
  | none => .error .missingResource
  | some mainC =>
      match alookup st.tokens main_nft with
      | none => .error .missingResource
      | some mainTok =>
          let main_uri := mainTok.uri
          let description := mainTok.description
          let evolution := (main_collection, mainTok.name)
          match rlookup mainC.evolutionRules evolution with
          | none => .error (.abort EINCORRECT_EVOLUTION)
          | some result_token =>
              match collectionIncrementSupply mainC with
              | .error e => .error e
              | .ok mainC1 =>
                  let nft_obj := st.nextAddr
                  let newTok : TokenData :=
                    { collection := main_collection
                      name := result_token
                      description := description
                      uri := main_uri
                      royalty := mainC.royalty
                      owner := sender
                      hasController := false
                      origin := .evolve }
                  let st1 := { st with
                    collections := aupdate st.collections main_collection mainC1
                    tokens := (nft_obj, newTok) :: st.tokens
                    nextAddr := st.nextAddr + 1 }
                  match burnWithController main_nft st1 with
                  | .error e => .error e
                  | .ok st2 =>
                      .ok ({ st2 with
                             events := st2.events ++
                               [Event.evolveNftEvent main_nft nft_obj sender] },
                           nft_obj)

/-- `add_evolution_rule`: the sender is ignored (the source marks the
collection-owner check as a TODO and performs none); aborts with
`EDUPLICATE_EVOLUTION` when the exact key is already present, otherwise adds
the rule to the main collection's `EvolutionRules`. -/
def add_evolution_rule (_sender : Addr) (main_collection : Addr)
    (main_token result_token : Str) (st : State) : Except Err State :=
  match alookup st.collections main_collection with
  | none => .error .missingResource
  | some c =>
      let new_rule := (main_collection, main_token)
      if (rlookup c.evolutionRules new_rule).isSome then
        .error (.abort EDUPLICATE_EVOLUTION)
      else
        .ok { st with
              collections := aupdate st.collections main_collection
                { c with evolutionRules := c.evolutionRules ++ [(new_rule, result_token)] } }

/-- `add_combination_rule`: the sender is ignored (the source marks the
collection-owner check as a TODO and performs none); aborts with
`EDUPLICATE_COMBINATION` when the exact ordered key is already present,
otherwise adds the rule to the main collection's `CombinationRules`. -/
def add_combination_rule (_sender : Addr) (main_collection : Addr)
    (main_token : Str) (secondary_collection : Addr)
    (secondary_token result_token : Str) (st : State) : Except Err State :=
  match alookup st.collections main_collection with
  | none => .error .missingResource
  | some c =>
      let new_rule := (main_collection, main_token, secondary_collection, secondary_token)
      if (rlookup c.combinationRules new_rule).isSome then
        .error (.abort EDUPLICATE_COMBINATION)
      else
        .ok { st with
              collections := aupdate st.collections main_collection
                { c with combinationRules := c.combinationRules ++ [(new_rule, result_token)] } }

/-- `update_creator`: admin only. -/
def update_creator (sender new_creator : Addr) (st : State) : Except Err State :=
  if is_admin st.config sender then
    .ok { st with config := { st.config with creator_addr := new_creator } }
  else .error (.abort EONLY_ADMIN_CAN_UPDATE_CREATOR)

/-- `set_pending_admin`: admin only. -/
def set_pending_admin (sender new_admin : Addr) (st : State) : Except Err State :=
  if is_admin st.config sender then
    .ok { st with config := { st.config with pending_admin_addr := some new_admin } }
  else .error (.abort EONLY_ADMIN_CAN_SET_PENDING_ADMIN)

/-- `accept_admin`: the sender must be the pending admin. -/
def accept_admin (sender : Addr) (st : State) : Except Err State :=
  if st.config.pending_admin_addr = some sender then
    .ok { st with config := { st.config with
            admin_addr := sender, pending_admin_addr := none } }
  else .error (.abort ENOT_PENDING_ADMIN)

/-- `update_mint_fee_collector`: admin only. -/
def update_mint_fee_collector (sender new_mint_fee_collector : Addr)
    (st : State) : Except Err State :=
  if is_admin st.config sender then
    .ok { st with config := { st.config with
            mint_fee_collector_addr := new_mint_fee_collector } }
  else .error (.abort EONLY_ADMIN_CAN_UPDATE_MINT_FEE_COLLECTOR)

/-! ### The public operation surface -/

/-- One submitted transaction: a public entry function of the module, or an
environment step (the clock advancing, or a coin deposit funding an
account). -/
inductive Op where
  | createCollection (sender : Addr) (description name uri : Str)
      (max_supply : Nat) (royalty_percentage : Option Nat)
      (allowlist : Option (List Addr))
      (allowlist_start_time allowlist_end_time
        allowlist_mint_limit_per_addr allowlist_mint_fee_per_nft : Option Nat)
      (public_mint_start_time public_mint_end_time
        public_mint_limit_per_addr public_mint_fee_per_nft : Option Nat)
  | mintNft (sender : Addr) (token_name : Str) (collection_obj : Addr) (amount : Nat)
  | combineNft (sender main_collection_obj secondary_collection_obj
      main_nft secondary_nft : Addr)
  | evolveNft (sender main_collection main_nft : Addr)
  | addCombinationRule (sender main_collection : Addr) (main_token : Str)
      (secondary_collection : Addr) (secondary_token result_token : Str)
  | addEvolutionRule (sender main_collection : Addr) (main_token result_token : Str)
  | updateCreator (sender new_creator : Addr)
  | setPendingAdmin (sender new_admin : Addr)
  | acceptAdmin (sender : Addr)
  | updateMintFeeCollector (sender new_mint_fee_collector : Addr)
  | advanceTime (delta : Nat)
  | fund (account : Addr) (amount : Nat)

/-- Run one operation, dropping the return values of the entry functions. -/
def run (op : Op) (st : State) : Except Err State :=
  match op with
  | .createCollection sender description name uri max_supply royalty_percentage
      allowlist alStart alEnd alLimit alFee pubStart pubEnd pubLimit pubFee =>
      (create_collection sender description name uri max_supply royalty_percentage
        allowlist alStart alEnd alLimit alFee pubStart pubEnd pubLimit pubFee st).map (·.1)
  | .mintNft sender token_name collection_obj amount =>
      (mint_nft sender token_name collection_obj amount st).map (·.1)
  | .combineNft sender mainCol secCol mainNft secNft =>
      (combine_nft sender mainCol secCol mainNft secNft st).map (·.1)
  | .evolveNft sender mainCol mainNft =>
      (evolve_nft sender mainCol mainNft st).map (·.1)
  | .addCombinationRule sender mainCol mainTok secCol secTok resTok =>
      add_combination_rule sender mainCol mainTok secCol secTok resTok st
  | .addEvolutionRule sender mainCol mainTok resTok =>
      add_evolution_rule sender mainCol mainTok resTok st
  | .updateCreator sender new_creator => update_creator sender new_creator st
  | .setPendingAdmin sender new_admin => set_pending_admin sender new_admin st
  | .acceptAdmin sender => accept_admin sender st
  | .updateMintFeeCollector sender c => update_mint_fee_collector sender c st
  | .advanceTime delta => .ok { st with now := st.now + delta }
  | .fund account amount =>
      .ok { st with
            balances := aupdate st.balances account
              ((alookup st.balances account).getD 0 + amount) }

/-- Effect of a submitted transaction on the state: an abort rolls the state
back (all-or-nothing transaction semantics). -/
def exec (op : Op) (st : State) : State :=
  match run op st with
  | .ok st' => st'
  | .error _ => st

/-- Run a list of transactions in order. -/
def execTrace (ops : List Op) (st : State) : State :=
  ops.foldl (fun s o => exec o s) st

/-- States reachable from a freshly deployed module by any sequence of
public operations and environment steps. -/
inductive Reachable : State → Prop where
  | init (deployer initial_creator_addr : Addr) :
      Reachable (init_module deployer initial_creator_addr)
  | step (st : State) (op : Op) : Reachable st → Reachable (exec op st)

/-! ### Association-list lemmas -/

theorem alookup_aupdate_self {β : Type} (l : List (Addr × β)) (k : Addr) (v : β) :
    alookup (aupdate l k v) k = some v := by
  induction l with
  | nil => simp [aupdate, alookup]
  | cons p rest ih =>
      by_cases h : p.1 = k
      · simp [aupdate, h, alookup]
      · simp only [aupdate]
        rw [if_neg h]
        simp [alookup, h, ih]

theorem alookup_aupdate_ne {β : Type} (l : List (Addr × β)) (k k' : Addr) (v : β)
    (h : k' ≠ k) : alookup (aupdate l k v) k' = alookup l k' := by
  induction l with
  | nil =>
      simp only [aupdate, alookup]
      rw [if_neg (fun hh => h hh.symm)]
  | cons p rest ih =>
      by_cases hp : p.1 = k
      · simp only [aupdate, if_pos hp, alookup]
        rw [if_neg (fun hh => h hh.symm), hp, if_neg (fun hh => h hh.symm)]
      · simp only [aupdate, if_neg hp, alookup]
        by_cases hp' : p.1 = k'
        · rw [if_pos hp', if_pos hp']
        · rw [if_neg hp', if_neg hp', ih]

theorem alookup_aupdate_isSome {β : Type} (l : List (Addr × β)) (k k' : Addr) (v : β)
    (h : (alookup l k').isSome = true) :
    (alookup (aupdate l k v) k').isSome = true := by
  by_cases hk : k' = k
  · subst hk; rw [alookup_aupdate_self]; rfl
  · rw [alookup_aupdate_ne l k k' v hk]; exact h

theorem alookup_cons_isSome {β : Type} (l : List (Addr × β)) (k k' : Addr) (v : β)
    (h : (alookup l k').isSome = true) :
    (alookup ((k, v) :: l) k').isSome = true := by
  by_cases hk : k = k'
  · simp [alookup, hk]
  · simp [alookup, hk, h]

theorem alookup_aerase {β : Type} (l : List (Addr × β)) (k k' : Addr) (h : k' ≠ k) :
    alookup (aerase l k) k' = alookup l k' := by
  induction l with
  | nil => simp [aerase]
  | cons p rest ih =>
      by_cases hp : p.1 = k
      · simp only [aerase, if_pos hp, alookup]
        have hne : ¬p.1 = k' := fun hh => h (hh ▸ hp)
        rw [if_neg hne, ih]
      · simp only [aerase, if_neg hp, alookup]
        by_cases hp' : p.1 = k'
        · rw [if_pos hp', if_pos hp']
        · rw [if_neg hp', if_neg hp', ih]

theorem alookup_aerase_self {β : Type} (l : List (Addr × β)) (k : Addr) :
    alookup (aerase l k) k = none := by
  induction l with
  | nil => simp [aerase, alookup]
  | cons p rest ih =>
      by_cases hp : p.1 = k
      · simp only [aerase, if_pos hp]
        exact ih
      · simp only [aerase, if_neg hp, alookup]
        exact ih

theorem alookup_some_mem {β : Type} (l : List (Addr × β)) (k : Addr) (v : β)
    (h : alookup l k = some v) : (k, v) ∈ l := by
  induction l with
  | nil => simp [alookup] at h
  | cons p rest ih =>
      simp only [alookup] at h
      by_cases hp : p.1 = k
      · rw [if_pos hp] at h
        have hpv : p = (k, v) := by
          obtain ⟨p1, p2⟩ := p
          simp only at hp h
          injection h with h2
          rw [hp, h2]
        rw [hpv]
        exact List.mem_cons_self _ _
      · rw [if_neg hp] at h
        exact List.mem_cons_of_mem _ (ih h)

theorem mem_aupdate {β : Type} (l : List (Addr × β)) (k : Addr) (v : β) (p : Addr × β)
    (h : p ∈ aupdate l k v) : p = (k, v) ∨ p ∈ l := by
  induction l with
  | nil => simp [aupdate] at h; left; exact h
  | cons q rest ih =>
      simp only [aupdate] at h
      by_cases hq : q.1 = k
      · rw [if_pos hq] at h
        rcases List.mem_cons.mp h with h1 | h2
        · left; exact h1
        · right; exact List.mem_cons_of_mem _ h2
      · rw [if_neg hq] at h
        rcases List.mem_cons.mp h with h1 | h2
        · right; exact h1 ▸ List.mem_cons_self _ _
        · rcases ih h2 with h3 | h4
          · left; exact h3
          · right; exact List.mem_cons_of_mem _ h4

theorem mem_aerase {β : Type} (l : List (Addr × β)) (k : Addr) (p : Addr × β)
    (h : p ∈ aerase l k) : p ∈ l := by
  induction l with
  | nil => simp [aerase] at h
  | cons q rest ih =>
      simp only [aerase] at h
      by_cases hq : q.1 = k
      · rw [if_pos hq] at h
        exact List.mem_cons_of_mem _ (ih h)
      · rw [if_neg hq] at h
        rcases List.mem_cons.mp h with h1 | h2
        · exact h1 ▸ List.mem_cons_self _ _
        · exact List.mem_cons_of_mem _ (ih h2)

theorem rlookup_append_self {κ β : Type} [DecidableEq κ] (l : List (κ × β)) (k : κ) (v : β) :
    (rlookup (l ++ [(k, v)]) k).isSome = true := by
  induction l with
  | nil => simp [rlookup]
  | cons p rest ih =>
      simp only [List.cons_append, rlookup]
      by_cases hp : p.1 = k
      · rw [if_pos hp]; rfl
      · rw [if_neg hp]; exact ih

/-! ### A concrete scenario

Two collections are created (addresses 2 and 4; collection 4 has maximum
supply 1), one NFT is minted in each (token 5 named A in collection 2, token
6 named B in collection 4), and the combination rule (2, A, 4, B) → C is
registered.  `demoCombined` then combines tokens 5 and 6 (burning both and
minting token 7 in collection 2). -/

def demoOps : List Op := [
  .createCollection 0 "d".data "M".data "collection.json".data 10 none
    none none none none none (some 0) (some 1000) (some 10) (some 0),
  .createCollection 0 "d".data "S".data "collection.json".data 1 none
    none none none none none (some 0) (some 1000) (some 10) (some 0),
  .mintNft 1000 "A".data 2 1,
  .mintNft 1000 "B".data 4 1,
  .addCombinationRule 0 2 "A".data 4 "B".data "C".data ]

def demoPre : State := execTrace demoOps (init_module 0 100)

def demoCombined : State := exec (Op.combineNft 1000 2 4 5 6) demoPre

/-- C1: the claim states that for every reachable state the counter returned
by `get_number_active_nfts` is at most the collection's `max_supply`.  The
code violates this: the counter is never decremented (the decrement in
`combine_nft` is commented out, contradicting the view's own doc comment
"number of NFTs in collection (= minted - burned)" and the test's TODO about
burned secondaries), while the framework's supply check uses the live
supply.  Burning a token of collection 4 as the combine secondary frees live
supply without touching the counter, so a subsequent mint pushes the counter
to 2 while `max_supply` is 1. -/
theorem counter_exceeds_max_supply_after_secondary_burn :
    (alookup (exec (Op.mintNft 1000 "Z".data 4 1) demoCombined).collections 4).map
        (fun c => c.maxSupply) = some 1 ∧
    get_number_active_nfts (exec (Op.mintNft 1000 "Z".data 4 1) demoCombined) 4 =
      some 2 := by
  decide

/-- C2 counterexample: in `demoCombined` collection 4 has counter 1 and
maximum supply 1, so the claim requires `mint_nft` of one more NFT to fail
with a supply-exhausted condition; instead the mint succeeds, because the
code checks only the framework's live supply (0 after the secondary burn),
never the counter. -/
theorem mint_succeeds_when_counter_would_exceed_max :
    get_number_active_nfts demoCombined 4 = some 1 ∧
    (alookup demoCombined.collections 4).map (fun c => c.maxSupply) = some 1 ∧
    (mint_nft 1000 "Z".data 4 1 demoCombined).isOk = true := by
  decide

/-- C9: `add_combination_rule` and `add_evolution_rule` ignore the sender
(the source binds it as `_sender` and leaves the collection-owner
authorization as a TODO), so two calls differing only in the caller identity
produce identical outcomes and identical resulting states. -/
theorem add_rule_sender_irrelevant (sender1 sender2 mainCol : Addr)
    (mainTok : Str) (secCol : Addr) (secTok resTok resTok2 : Str) (st : State) :
    add_combination_rule sender1 mainCol mainTok secCol secTok resTok st =
      add_combination_rule sender2 mainCol mainTok secCol secTok resTok st ∧
    add_evolution_rule sender1 mainCol mainTok resTok2 st =
      add_evolution_rule sender2 mainCol mainTok resTok2 st :=
  ⟨rfl, rfl⟩

theorem add_combination_rule_dup (sender mainCol : Addr) (mainTok : Str)
    (secCol : Addr) (secTok resTok : Str) (st : State) (c : Collection)
    (hc : alookup st.collections mainCol = some c)
    (hdup : (rlookup c.combinationRules (mainCol, mainTok, secCol, secTok)).isSome = true) :
    add_combination_rule sender mainCol mainTok secCol secTok resTok st =
      .error (.abort EDUPLICATE_COMBINATION) := by
  simp only [add_combination_rule, hc]
  rw [if_pos hdup]

theorem add_evolution_rule_dup (sender mainCol : Addr) (mainTok resTok : Str)
    (st : State) (c : Collection)
    (hc : alookup st.collections mainCol = some c)
    (hdup : (rlookup c.evolutionRules (mainCol, mainTok)).isSome = true) :
    add_evolution_rule sender mainCol mainTok resTok st =
      .error (.abort EDUPLICATE_EVOLUTION) := by
  simp only [add_evolution_rule, hc]
  rw [if_pos hdup]

/-- C6: adding a combination rule (respectively an evolution rule) twice
with an identical exact key fails the second time with the duplicate-rule
abort (`EDUPLICATE_COMBINATION` / `EDUPLICATE_EVOLUTION`), and the failed
call leaves the state — in particular the stored rule mapping — unchanged. -/
theorem duplicate_rule_add_fails (sender1 sender2 mainCol : Addr) (mainTok : Str)
    (secCol : Addr) (secTok resTok resTok2 eResTok eResTok2 : Str) (st st1 st2 : State) :
    (add_combination_rule sender1 mainCol mainTok secCol secTok resTok st = .ok st1 →
      add_combination_rule sender2 mainCol mainTok secCol secTok resTok2 st1 =
        .error (.abort EDUPLICATE_COMBINATION) ∧
      exec (Op.addCombinationRule sender2 mainCol mainTok secCol secTok resTok2) st1 = st1) ∧
    (add_evolution_rule sender1 mainCol mainTok eResTok st = .ok st2 →
      add_evolution_rule sender2 mainCol mainTok eResTok2 st2 =
        .error (.abort EDUPLICATE_EVOLUTION) ∧
      exec (Op.addEvolutionRule sender2 mainCol mainTok eResTok2) st2 = st2) := by
  constructor
  · intro h
    simp only [add_combination_rule] at h
    cases hc : alookup st.collections mainCol with
    | none => simp only [hc] at h; cases h
    | some c =>
        simp only [hc] at h
        by_cases hdup :
            (rlookup c.combinationRules (mainCol, mainTok, secCol, secTok)).isSome = true
        · rw [if_pos hdup] at h; cases h
        · rw [if_neg hdup] at h
          injection h with h1
          have hc1 : alookup st1.collections mainCol =
              some { c with combinationRules :=
                c.combinationRules ++ [((mainCol, mainTok, secCol, secTok), resTok)] } := by
            rw [← h1]
            exact alookup_aupdate_self _ _ _
          have hfail := add_combination_rule_dup sender2 mainCol mainTok secCol secTok
            resTok2 st1 _ hc1 (rlookup_append_self _ _ _)
          refine ⟨hfail, ?_⟩
          simp only [exec, run]
          rw [hfail]
  · intro h
    simp only [add_evolution_rule] at h
    cases hc : alookup st.collections mainCol with
    | none => simp only [hc] at h; cases h
    | some c =>
        simp only [hc] at h
        by_cases hdup : (rlookup c.evolutionRules (mainCol, mainTok)).isSome = true
        · rw [if_pos hdup] at h; cases h
        · rw [if_neg hdup] at h
          injection h with h1
          have hc1 : alookup st2.collections mainCol =
              some { c with evolutionRules :=
                c.evolutionRules ++ [((mainCol, mainTok), eResTok)] } := by
            rw [← h1]
            exact alookup_aupdate_self _ _ _
          have hfail := add_evolution_rule_dup sender2 mainCol mainTok eResTok2 st2 _
            hc1 (rlookup_append_self _ _ _)
          refine ⟨hfail, ?_⟩
          simp only [exec, run]
          rw [hfail]

/-- C7: `create_collection` fails with `EAT_LEAST_ONE_STAGE_IS_REQUIRED`
("no stages configured") when neither an allowlist nor a public-mint
configuration is supplied (in particular no public start time), and fails
when an allowlist is supplied with its start time, end time or per-address
mint limit absent; in both cases the whole transaction aborts, so no
collection is registered (the state is unchanged). -/
theorem create_collection_stage_validation (sender : Addr)
    (description name uri : Str) (max_supply : Nat)
    (royalty_percentage : Option Nat)
    (alStart alEnd alLimit alFee pubEnd pubLimit pubFee : Option Nat) (st : State) :
    (create_collection sender description name uri max_supply royalty_percentage
        none alStart alEnd alLimit alFee none pubEnd pubLimit pubFee st =
      .error (.abort EAT_LEAST_ONE_STAGE_IS_REQUIRED) ∧
     exec (Op.createCollection sender description name uri max_supply
        royalty_percentage none alStart alEnd alLimit alFee none pubEnd pubLimit
        pubFee) st = st) ∧
    (∀ (al : List Addr) (pubStart : Option Nat),
      alStart = none ∨ alEnd = none ∨ alLimit = none →
      (∃ code,
        (code = ESTART_TIME_MUST_BE_SET_FOR_STAGE ∨
         code = EEND_TIME_MUST_BE_SET_FOR_STAGE ∨
         code = EMINT_LIMIT_PER_ADDR_MUST_BE_SET_FOR_STAGE) ∧
        create_collection sender description name uri max_supply royalty_percentage
          (some al) alStart alEnd alLimit alFee pubStart pubEnd pubLimit pubFee st =
          .error (.abort code)) ∧
      exec (Op.createCollection sender description name uri max_supply
        royalty_percentage (some al) alStart alEnd alLimit alFee pubStart pubEnd
        pubLimit pubFee) st = st) := by
  constructor
  · have hfail : create_collection sender description name uri max_supply
        royalty_percentage none alStart alEnd alLimit alFee none pubEnd pubLimit
        pubFee st = .error (.abort EAT_LEAST_ONE_STAGE_IS_REQUIRED) := by
      simp [create_collection]
    refine ⟨hfail, ?_⟩
    simp only [exec, run]
    rw [hfail]
    rfl
  · intro al pubStart hmiss
    have hfail : ∃ code,
        (code = ESTART_TIME_MUST_BE_SET_FOR_STAGE ∨
         code = EEND_TIME_MUST_BE_SET_FOR_STAGE ∨
         code = EMINT_LIMIT_PER_ADDR_MUST_BE_SET_FOR_STAGE) ∧
        create_collection sender description name uri max_supply royalty_percentage
          (some al) alStart alEnd alLimit alFee pubStart pubEnd pubLimit pubFee st =
          .error (.abort code) := by
      cases alStart with
      | none =>
          refine ⟨ESTART_TIME_MUST_BE_SET_FOR_STAGE, Or.inl rfl, ?_⟩
          simp [create_collection, add_allowlist_stage]
      | some s =>
          cases alEnd with
          | none =>
              refine ⟨EEND_TIME_MUST_BE_SET_FOR_STAGE, Or.inr (Or.inl rfl), ?_⟩
              simp [create_collection, add_allowlist_stage]
          | some e =>
              cases alLimit with
              | none =>
                  refine ⟨EMINT_LIMIT_PER_ADDR_MUST_BE_SET_FOR_STAGE,
                    Or.inr (Or.inr rfl), ?_⟩
                  simp [create_collection, add_allowlist_stage]
              | some lim =>
                  rcases hmiss with h | h | h <;> cases h
    obtain ⟨code, hcode, heq⟩ := hfail
    refine ⟨⟨code, hcode, heq⟩, ?_⟩
    simp only [exec, run]
    rw [heq]
    rfl

/-- C4: when no combination rule is registered under the exact ordered key
(main collection, main token name, secondary collection, secondary token
name) in the main collection's rule table, `combine_nft` aborts with
`EINCORRECT_COMBINATION` and the state is unchanged — in particular both
input tokens are still present, so neither was burned.  The second conjunct
shows on the concrete scenario that the ordered key is not symmetric: with
the rule (collection 2, A, collection 4, B) → C registered, the swapped call
(main token B of collection 4, secondary token A of collection 2) hits no
rule and aborts with the same condition. -/
theorem combine_unregistered_key_aborts :
    (∀ (sender mainCol secCol mainNft secNft : Addr) (st : State)
      (mainC : Collection) (mainTok secTok : TokenData),
      alookup st.collections mainCol = some mainC →
      alookup st.tokens mainNft = some mainTok →
      alookup st.tokens secNft = some secTok →
      rlookup mainC.combinationRules
        (mainCol, mainTok.name, secCol, secTok.name) = none →
      combine_nft sender mainCol secCol mainNft secNft st =
        .error (.abort EINCORRECT_COMBINATION) ∧
      exec (Op.combineNft sender mainCol secCol mainNft secNft) st = st ∧
      alookup (exec (Op.combineNft sender mainCol secCol mainNft secNft) st).tokens
        mainNft = some mainTok ∧
      alookup (exec (Op.combineNft sender mainCol secCol mainNft secNft) st).tokens
        secNft = some secTok) ∧
    ((alookup demoPre.collections 2).map
        (fun c => rlookup c.combinationRules (2, "A".data, 4, "B".data)) =
        some (some "C".data) ∧
      combine_nft 1000 4 2 6 5 demoPre = .error (.abort EINCORRECT_COMBINATION)) := by
  constructor
  · intro sender mainCol secCol mainNft secNft st mainC mainTok secTok hc hm hs hr
    have hfail : combine_nft sender mainCol secCol mainNft secNft st =
        .error (.abort EINCORRECT_COMBINATION) := by
      simp only [combine_nft, hc, hm, hs, hr]
    have hexec : exec (Op.combineNft sender mainCol secCol mainNft secNft) st = st := by
      simp only [exec, run]
      rw [hfail]
      rfl
    exact ⟨hfail, hexec, by rw [hexec]; exact hm, by rw [hexec]; exact hs⟩
  · exact ⟨by decide, by decide⟩

theorem mint_nft_internal_supply (tn : Str) (snd col : Addr) (st st' : State)
    (a : Addr) (c : Collection) (hc : alookup st.collections col = some c)
    (h : mint_nft_internal tn snd col st = .ok (st', a)) :
    c.currentSupply + 1 ≤ c.maxSupply ∧
    alookup st'.collections col =
      some { c with currentSupply := c.currentSupply + 1, nfts := c.nfts + 1 } := by
  by_cases hle : c.currentSupply + 1 ≤ c.maxSupply
  · simp only [mint_nft_internal, hc, collectionIncrementSupply, if_pos hle,
      Except.ok.injEq, Prod.mk.injEq] at h
    refine ⟨hle, ?_⟩
    rw [← h.1]
    exact alookup_aupdate_self _ _ _
  · simp only [mint_nft_internal, hc, collectionIncrementSupply, if_neg hle] at h
    cases h

theorem mintLoop_supply (tn : Str) (snd col : Addr) :
    ∀ (n : Nat) (st : State) (acc : List Addr) (st' : State) (objs : List Addr)
      (c : Collection),
      alookup st.collections col = some c →
      mintLoop tn snd col n st acc = .ok (st', objs) →
      ∃ c', alookup st'.collections col = some c' ∧
        c'.maxSupply = c.maxSupply ∧
        c'.currentSupply = c.currentSupply + n ∧
        c'.nfts = c.nfts + n ∧
        (1 ≤ n → c'.currentSupply ≤ c'.maxSupply) := by
  intro n
  induction n with
  | zero =>
      intro st acc st' objs c hc h
      simp only [mintLoop, Except.ok.injEq, Prod.mk.injEq] at h
      refine ⟨c, ?_, rfl, rfl, rfl, ?_⟩
      · rw [← h.1]; exact hc
      · intro habs; cases habs
  | succ m ih =>
      intro st acc st' objs c hc h
      simp only [mintLoop] at h
      cases hmi : mint_nft_internal tn snd col st with
      | error e => simp only [hmi] at h; cases h
      | ok p =>
          obtain ⟨st1, a⟩ := p
          simp only [hmi] at h
          obtain ⟨hle, hc1⟩ := mint_nft_internal_supply tn snd col st st1 a c hc hmi
          obtain ⟨c', hc', hmax, hsup, hnft, hbound⟩ :=
            ih st1 (acc ++ [a]) st' objs _ hc1 h
          have hmax' : c'.maxSupply = c.maxSupply := hmax
          have hsup' : c'.currentSupply = c.currentSupply + 1 + m := hsup
          have hnft' : c'.nfts = c.nfts + 1 + m := hnft
          refine ⟨c', hc', hmax', by omega, by omega, ?_⟩
          intro _
          rcases Nat.eq_zero_or_pos m with hm | hm
          · subst hm; omega
          · exact hbound hm

theorem execute_earliest_stage_fields (user : Addr) (c : Collection)
    (amount now i : Nat) (c1 : Collection)
    (h : execute_earliest_stage user c amount now = some (i, c1)) :
    c1.maxSupply = c.maxSupply ∧ c1.currentSupply = c.currentSupply ∧
    c1.nfts = c.nfts ∧ c1.uri = c.uri := by
  simp only [execute_earliest_stage] at h
  cases hf : c.stages.findIdx?
      (fun s => stageActive s now && stageEligible s user amount) with
  | none => simp only [hf] at h; cases h
  | some j =>
      simp only [hf, Option.some.injEq, Prod.mk.injEq] at h
      rw [← h.2]
      exact ⟨rfl, rfl, rfl, rfl⟩

theorem pay_for_mint_collections (sender : Addr) (fee : Nat) (st st' : State)
    (h : pay_for_mint sender fee st = .ok st') : st'.collections = st.collections := by
  simp only [pay_for_mint, coinTransfer] at h
  split at h
  · split at h
    · injection h with h1
      rw [← h1]
    · cases h
  · injection h with h1
    rw [← h1]

theorem mint_nft_ok_supply (sender : Addr) (tn : Str) (col : Addr) (amount : Nat)
    (st st' : State) (objs : List Addr) (c : Collection)
    (hc : alookup st.collections col = some c)
    (h : mint_nft sender tn col amount st = .ok (st', objs)) :
    ∃ c', alookup st'.collections col = some c' ∧
      c'.maxSupply = c.maxSupply ∧
      c'.currentSupply = c.currentSupply + amount ∧
      c'.nfts = c.nfts + amount ∧
      (1 ≤ amount → c.currentSupply + amount ≤ c.maxSupply) := by
  simp only [mint_nft, hc] at h
  cases hex : execute_earliest_stage sender c amount st.now with
  | none => simp only [hex] at h; cases h
  | some p =>
      obtain ⟨i, c1⟩ := p
      simp only [hex] at h
      obtain ⟨hmax1, hsup1, hnft1, -⟩ :=
        execute_earliest_stage_fields sender c amount st.now i c1 hex
      cases hst : find_mint_stage_by_index c1 i with
      | none => simp only [hst] at h; cases h
      | some stage =>
          simp only [hst] at h
          cases hfee : get_mint_fee c1 stage.category amount with
          | error e => simp only [hfee] at h; cases h
          | ok fee =>
              simp only [hfee] at h
              cases hpay : pay_for_mint sender fee
                  { st with collections := aupdate st.collections col c1 } with
              | error e => simp only [hpay] at h; cases h
              | ok st2 =>
                  simp only [hpay] at h
                  cases hloop : mintLoop tn sender col amount st2 [] with
                  | error e => simp only [hloop] at h; cases h
                  | ok q =>
                      obtain ⟨st3, objs3⟩ := q
                      simp only [hloop, Except.ok.injEq, Prod.mk.injEq] at h
                      have hc2 : alookup st2.collections col = some c1 := by
                        rw [pay_for_mint_collections _ _ _ _ hpay]
                        exact alookup_aupdate_self _ _ _
                      obtain ⟨c', hc', hmax, hsup, hnft, hb⟩ :=
                        mintLoop_supply tn sender col amount st2 [] st3 objs3 c1 hc2 hloop
                      refine ⟨c', ?_, by omega, by omega, by omega, ?_⟩
                      · rw [← h.1]
                        exact hc'
                      · intro ha
                        have := hb ha
                        omega

/-- C2 amended: the source contains no counter-based supply check and no
"supply exhausted" abort code; the only supply bound enforced on `mint_nft`
is the token framework's fixed-supply bound on the live supply (minted minus
burned).  On success the live supply grows by exactly the amount and stays
within `max_supply` (first conjunct, which also shows the counter grows by
the amount); when the live supply plus the amount would exceed `max_supply`
the operation aborts and the state is unchanged, no token minted (second
conjunct).  The claim's counter-based trigger is refuted separately: with a
gap between counter and live supply the mint can succeed even though counter
plus amount exceeds `max_supply`. -/
theorem mint_nft_supply_behavior :
    (∀ (sender : Addr) (tn : Str) (col : Addr) (amount : Nat) (st st' : State)
      (objs : List Addr) (c : Collection),
      alookup st.collections col = some c →
      mint_nft sender tn col amount st = .ok (st', objs) →
      ∃ c', alookup st'.collections col = some c' ∧
        c'.maxSupply = c.maxSupply ∧
        c'.currentSupply = c.currentSupply + amount ∧
        c'.nfts = c.nfts + amount ∧
        (1 ≤ amount → c.currentSupply + amount ≤ c.maxSupply)) ∧
    (∀ (sender : Addr) (tn : Str) (col : Addr) (amount : Nat) (st : State)
      (c : Collection),
      alookup st.collections col = some c →
      1 ≤ amount →
      c.maxSupply < c.currentSupply + amount →
      ∃ e, mint_nft sender tn col amount st = .error e ∧
        exec (Op.mintNft sender tn col amount) st = st) := by
  constructor
  · intro sender tn col amount st st' objs c hc h
    exact mint_nft_ok_supply sender tn col amount st st' objs c hc h
  · intro sender tn col amount st c hc hamt hover
    cases hres : mint_nft sender tn col amount st with
    | ok p =>
        obtain ⟨st', objs⟩ := p
        obtain ⟨c', -, -, -, -, hb⟩ :=
          mint_nft_ok_supply sender tn col amount st st' objs c hc hres
        exact absurd (hb hamt) (by omega)
    | error e =>
        refine ⟨e, rfl, ?_⟩
        simp only [exec, run]
        rw [hres]
        rfl

/-- State of the concrete scenario before the combination rule is added:
collections 2 and 4, token 5 (A) and token 6 (B), no rules. -/
def demoPre4 : State := execTrace (demoOps.take 4) (init_module 0 100)

/-- State with an evolution rule (2, A) → E added on top of `demoPre4`. -/
def demoEvo : State :=
  exec (Op.addEvolutionRule 0 2 "A".data "E".data) demoPre4

theorem duplicate_rule_add_fails_witness :
    (add_combination_rule 1 2 "A".data 4 "B".data "X".data demoPre =
        .error (.abort EDUPLICATE_COMBINATION) ∧
      exec (Op.addCombinationRule 1 2 "A".data 4 "B".data "X".data) demoPre =
        demoPre) ∧
    (add_evolution_rule 1 2 "A".data "X".data demoEvo =
        .error (.abort EDUPLICATE_EVOLUTION) ∧
      exec (Op.addEvolutionRule 1 2 "A".data "X".data) demoEvo = demoEvo) := by
  have h1 : add_combination_rule 0 2 "A".data 4 "B".data "C".data demoPre4 =
      .ok demoPre := by decide
  have h2 : add_evolution_rule 0 2 "A".data "E".data demoPre4 = .ok demoEvo := by
    decide
  have h := duplicate_rule_add_fails 0 1 2 "A".data 4 "B".data "C".data "X".data
    "E".data "X".data demoPre4 demoPre demoEvo
  exact ⟨h.1 h1, h.2 h2⟩

theorem create_collection_stage_validation_witness :
    (create_collection 0 "d".data "W".data "u".data 5 none none none none none
        none none none none none (init_module 0 100) =
      .error (.abort EAT_LEAST_ONE_STAGE_IS_REQUIRED)) ∧
    (∃ code,
      (code = ESTART_TIME_MUST_BE_SET_FOR_STAGE ∨
       code = EEND_TIME_MUST_BE_SET_FOR_STAGE ∨
       code = EMINT_LIMIT_PER_ADDR_MUST_BE_SET_FOR_STAGE) ∧
      create_collection 0 "d".data "W".data "u".data 5 none (some [7]) none none
        none none none none none none (init_module 0 100) =
        .error (.abort code)) := by
  refine ⟨(create_collection_stage_validation 0 "d".data "W".data "u".data 5 none
    none none none none none none none (init_module 0 100)).1.1, ?_⟩
  exact ((create_collection_stage_validation 0 "d".data "W".data "u".data 5 none
    none none none none none none none (init_module 0 100)).2 [7] none
    (Or.inl rfl)).1

theorem combine_unregistered_key_aborts_witness :
    combine_nft 1000 2 4 5 6 demoPre4 = .error (.abort EINCORRECT_COMBINATION) ∧
    exec (Op.combineNft 1000 2 4 5 6) demoPre4 = demoPre4 := by
  cases hc : alookup demoPre4.collections 2 with
  | none => exact absurd hc (by decide)
  | some mainC =>
  cases hm : alookup demoPre4.tokens 5 with
  | none => exact absurd hm (by decide)
  | some mainTok =>
  cases hs : alookup demoPre4.tokens 6 with
  | none => exact absurd hs (by decide)
  | some secTok =>
  have hmn : mainTok.name = "A".data := by
    have h0 : (alookup demoPre4.tokens 5).map (fun t => t.name) =
        some ("A".data) := by decide
    rw [hm] at h0
    exact Option.some.inj h0
  have hsn : secTok.name = "B".data := by
    have h0 : (alookup demoPre4.tokens 6).map (fun t => t.name) =
        some ("B".data) := by decide
    rw [hs] at h0
    exact Option.some.inj h0
  have hr : rlookup mainC.combinationRules (2, mainTok.name, 4, secTok.name) =
      none := by
    have h0 : (alookup demoPre4.collections 2).map
        (fun c => rlookup c.combinationRules (2, "A".data, 4, "B".data)) =
        some none := by decide
    rw [hc] at h0
    rw [hmn, hsn]
    exact Option.some.inj h0
  have h := combine_unregistered_key_aborts.1 1000 2 4 5 6 demoPre4 mainC mainTok
    secTok hc hm hs hr
  exact ⟨h.1, h.2.1⟩

theorem mint_nft_supply_behavior_witness :
    ∃ c c', alookup demoCombined.collections 4 = some c ∧
      mint_nft 1000 "Z".data 4 1 demoCombined =
        .ok (exec (Op.mintNft 1000 "Z".data 4 1) demoCombined, [8]) ∧
      alookup (exec (Op.mintNft 1000 "Z".data 4 1) demoCombined).collections 4 =
        some c' ∧
      c'.currentSupply = c.currentSupply + 1 ∧
      c.currentSupply + 1 ≤ c.maxSupply := by
  have hok : mint_nft 1000 "Z".data 4 1 demoCombined =
      .ok (exec (Op.mintNft 1000 "Z".data 4 1) demoCombined, [8]) := by decide
  cases hc : alookup demoCombined.collections 4 with
  | none => exact absurd hc (by decide)
  | some c =>
      obtain ⟨c', h1, h2, h3, h4, h5⟩ :=
        mint_nft_supply_behavior.1 1000 "Z".data 4 1 demoCombined
          (exec (Op.mintNft 1000 "Z".data 4 1) demoCombined) [8] c hc hok
      exact ⟨c, c', rfl, hok, h1, h3, h5 (le_refl 1)⟩

/-- The result token built by `combine_nft`: named by the rule's result,
description and URI copied from the main token, royalty read from the main
collection at execution time, owned by the caller, no `TokenController`. -/
def combineResultToken (sender mainCol : Addr) (resName : Str)
    (mainTok : TokenData) (mainC : Collection) : TokenData :=
  { collection := mainCol
    name := resName
    description := mainTok.description
    uri := mainTok.uri
    royalty := mainC.royalty
    owner := sender
    hasController := false
    origin := Origin.combine }

/-- Intermediate state of `combine_nft` / `evolve_nft` after the result
token has been created in the main collection and transferred, before the
input burns. -/
def resultMintState (st : State) (mainColAddr : Addr) (mainC : Collection)
    (tok : TokenData) : State :=
  { st with
    collections := aupdate st.collections mainColAddr
      { mainC with currentSupply := mainC.currentSupply + 1 }
    tokens := (st.nextAddr, tok) :: st.tokens
    nextAddr := st.nextAddr + 1 }

theorem combine_nft_eq (sender mainCol secCol mainNft secNft : Addr) (st : State)
    (mainC : Collection) (mainTok secTok : TokenData) (resName : Str)
    (hc : alookup st.collections mainCol = some mainC)
    (hm : alookup st.tokens mainNft = some mainTok)
    (hs : alookup st.tokens secNft = some secTok)
    (hr : rlookup mainC.combinationRules
      (mainCol, mainTok.name, secCol, secTok.name) = some resName)
    (hsupply : mainC.currentSupply + 1 ≤ mainC.maxSupply) :
    combine_nft sender mainCol secCol mainNft secNft st =
      (match burnWithController mainNft
          (resultMintState st mainCol mainC
            (combineResultToken sender mainCol resName mainTok mainC)) with
       | .error e => .error e
       | .ok st2 =>
          match burnWithController secNft st2 with
          | .error e => .error e
          | .ok st3 =>
              .ok ({ st3 with events := st3.events ++
                      [Event.combineNftsEvent [mainNft, secNft] st.nextAddr sender] },
                   st.nextAddr)) := by
  simp only [combine_nft, hc, hm, hs, hr, collectionIncrementSupply,
    if_pos hsupply, resultMintState, combineResultToken]

theorem burnWithController_parts (tokenAddr : Addr) (st : State) (t : TokenData)
    (ht : alookup st.tokens tokenAddr = some t)
    (hctrl : t.hasController = true)
    (hcol : (alookup st.collections t.collection).isSome = true) :
    ∃ st', burnWithController tokenAddr st = .ok st' ∧
      st'.tokens = aerase st.tokens tokenAddr ∧
      st'.events = st.events ∧
      st'.nextAddr = st.nextAddr ∧
      st'.registry = st.registry ∧
      st'.config = st.config ∧
      st'.balances = st.balances ∧
      (∀ k, (alookup st.collections k).isSome = true →
        (alookup st'.collections k).isSome = true) := by
  cases hcc : alookup st.collections t.collection with
  | none => rw [hcc] at hcol; cases hcol
  | some c =>
      refine ⟨{ st with
                tokens := aerase st.tokens tokenAddr
                collections := aupdate st.collections t.collection
                  { c with currentSupply := c.currentSupply - 1 } },
        ?_, rfl, rfl, rfl, rfl, rfl, rfl, ?_⟩
      · simp only [burnWithController, ht, hctrl, if_true, hcc]
      · intro k hk
        exact alookup_aupdate_isSome _ _ _ _ hk

theorem combine_success_core (sender mainCol secCol mainNft secNft : Addr)
    (st : State) (mainC : Collection) (mainTok secTok : TokenData) (resName : Str)
    (hc : alookup st.collections mainCol = some mainC)
    (hm : alookup st.tokens mainNft = some mainTok)
    (hs : alookup st.tokens secNft = some secTok)
    (hr : rlookup mainC.combinationRules
      (mainCol, mainTok.name, secCol, secTok.name) = some resName)
    (hsupply : mainC.currentSupply + 1 ≤ mainC.maxSupply)
    (hmc : mainTok.hasController = true)
    (hsc : secTok.hasController = true)
    (hmcol : (alookup st.collections mainTok.collection).isSome = true)
    (hscol : (alookup st.collections secTok.collection).isSome = true)
    (hms : mainNft ≠ secNft)
    (hmfresh : mainNft ≠ st.nextAddr)
    (hsfresh : secNft ≠ st.nextAddr) :
    ∃ st', combine_nft sender mainCol secCol mainNft secNft st =
        .ok (st', st.nextAddr) ∧
      alookup st'.tokens st.nextAddr =
        some (combineResultToken sender mainCol resName mainTok mainC) ∧
      alookup st'.tokens mainNft = none ∧
      alookup st'.tokens secNft = none ∧
      (∀ a, a ≠ mainNft → a ≠ secNft → a ≠ st.nextAddr →
        alookup st'.tokens a = alookup st.tokens a) ∧
      st'.nextAddr = st.nextAddr + 1 ∧
      st'.events = st.events ++
        [Event.combineNftsEvent [mainNft, secNft] st.nextAddr sender] := by
  have heq := combine_nft_eq sender mainCol secCol mainNft secNft st mainC mainTok
    secTok resName hc hm hs hr hsupply
  have ht1 : alookup (resultMintState st mainCol mainC
      (combineResultToken sender mainCol resName mainTok mainC)).tokens mainNft =
      some mainTok := by
    simp only [resultMintState, alookup]
    rw [if_neg (fun hh => hmfresh hh.symm)]
    exact hm
  have hcol1 : (alookup (resultMintState st mainCol mainC
      (combineResultToken sender mainCol resName mainTok mainC)).collections
      mainTok.collection).isSome = true := by
    simp only [resultMintState]
    exact alookup_aupdate_isSome _ _ _ _ hmcol
  obtain ⟨st2, hb2, htok2, hev2, hnx2, -, -, -, hgrow2⟩ :=
    burnWithController_parts mainNft
      (resultMintState st mainCol mainC
        (combineResultToken sender mainCol resName mainTok mainC))
      mainTok ht1 hmc hcol1
  have ht2 : alookup st2.tokens secNft = some secTok := by
    rw [htok2, alookup_aerase _ _ _ hms.symm]
    simp only [resultMintState, alookup]
    rw [if_neg (fun hh => hsfresh hh.symm)]
    exact hs
  have hcol2 : (alookup st2.collections secTok.collection).isSome = true := by
    refine hgrow2 _ ?_
    simp only [resultMintState]
    exact alookup_aupdate_isSome _ _ _ _ hscol
  obtain ⟨st3, hb3, htok3, hev3, hnx3, -, -, -, -⟩ :=
    burnWithController_parts secNft st2 secTok ht2 hsc hcol2
  refine ⟨{ st3 with events := st3.events ++
      [Event.combineNftsEvent [mainNft, secNft] st.nextAddr sender] },
    ?_, ?_, ?_, ?_, ?_, ?_, ?_⟩
  · simp only [heq, hb2, hb3]
  · dsimp only
    rw [htok3, htok2, alookup_aerase _ _ _ hsfresh.symm,
      alookup_aerase _ _ _ hmfresh.symm]
    simp [resultMintState, alookup]
  · dsimp only
    rw [htok3, htok2, alookup_aerase _ _ _ hms]
    exact alookup_aerase_self _ _
  · dsimp only
    rw [htok3]
    exact alookup_aerase_self _ _
  · intro a ha1 ha2 ha3
    dsimp only
    rw [htok3, htok2, alookup_aerase _ _ _ ha2, alookup_aerase _ _ _ ha1]
    simp only [resultMintState, alookup]
    rw [if_neg (fun hh => ha3 hh.symm)]
  · dsimp only
    rw [hnx3, hnx2]
    rfl
  · dsimp only
    rw [hev3, hev2]
    rfl

/-- C5: when a combination rule exists for the exact ordered key of the two
inputs, `combine_nft` mints exactly one new token in the main collection —
at the fresh object address, with the rule's result name, the main token's
description and content-URI verbatim, and the royalty read from the main
collection at execution time — transfers it to the caller, burns both input
tokens, leaves every other token untouched, and emits the event carrying
both burned identities, the new identity and the recipient. -/
theorem combine_success_spec (sender mainCol secCol mainNft secNft : Addr)
    (st : State) (mainC : Collection) (mainTok secTok : TokenData) (resName : Str)
    (hc : alookup st.collections mainCol = some mainC)
    (hm : alookup st.tokens mainNft = some mainTok)
    (hs : alookup st.tokens secNft = some secTok)
    (hr : rlookup mainC.combinationRules
      (mainCol, mainTok.name, secCol, secTok.name) = some resName)
    (hsupply : mainC.currentSupply + 1 ≤ mainC.maxSupply)
    (hmc : mainTok.hasController = true)
    (hsc : secTok.hasController = true)
    (hmcol : (alookup st.collections mainTok.collection).isSome = true)
    (hscol : (alookup st.collections secTok.collection).isSome = true)
    (hms : mainNft ≠ secNft)
    (hmfresh : mainNft ≠ st.nextAddr)
    (hsfresh : secNft ≠ st.nextAddr) :
    ∃ st', combine_nft sender mainCol secCol mainNft secNft st =
        .ok (st', st.nextAddr) ∧
      alookup st'.tokens st.nextAddr =
        some (combineResultToken sender mainCol resName mainTok mainC) ∧
      alookup st'.tokens mainNft = none ∧
      alookup st'.tokens secNft = none ∧
      (∀ a, a ≠ mainNft → a ≠ secNft → a ≠ st.nextAddr →
        alookup st'.tokens a = alookup st.tokens a) ∧
      st'.nextAddr = st.nextAddr + 1 ∧
      st'.events = st.events ++
        [Event.combineNftsEvent [mainNft, secNft] st.nextAddr sender] :=
  combine_success_core sender mainCol secCol mainNft secNft st mainC mainTok
    secTok resName hc hm hs hr hsupply hmc hsc hmcol hscol hms hmfresh hsfresh

/-- The first collection of the concrete scenario, as stored in `demoPre`. -/
def demoMainC : Collection := (alookup demoPre.collections 2).getD default

/-- Token 5 (A) of the concrete scenario, as stored in `demoPre`. -/
def demoMainTok : TokenData := (alookup demoPre.tokens 5).getD default

/-- Token 6 (B) of the concrete scenario, as stored in `demoPre`. -/
def demoSecTok : TokenData := (alookup demoPre.tokens 6).getD default

theorem combine_success_spec_witness :
    (∃ st', combine_nft 1000 2 4 5 6 demoPre = .ok (st', demoPre.nextAddr) ∧
      alookup st'.tokens demoPre.nextAddr =
        some (combineResultToken 1000 2 "C".data demoMainTok demoMainC) ∧
      alookup st'.tokens 5 = none ∧
      alookup st'.tokens 6 = none ∧
      (∀ a, a ≠ 5 → a ≠ 6 → a ≠ demoPre.nextAddr →
        alookup st'.tokens a = alookup demoPre.tokens a) ∧
      st'.nextAddr = demoPre.nextAddr + 1 ∧
      st'.events = demoPre.events ++
        [Event.combineNftsEvent [5, 6] demoPre.nextAddr 1000]) ∧
    demoPre.nextAddr = 7 := by
  refine ⟨combine_success_spec 1000 2 4 5 6 demoPre demoMainC demoMainTok demoSecTok
    "C".data (by decide) (by decide) (by decide) (by decide) (by decide) (by decide)
    (by decide) (by decide) (by decide) (by decide) (by decide) (by decide), by decide⟩

/-! ### Stage selection (C3) -/

theorem find_min_start (l : List MintStage)
    (hs : l.Pairwise (fun a b => a.startTime ≤ b.startTime))
    (p : MintStage → Bool) (s : MintStage) (hf : l.find? p = some s) :
    ∀ t ∈ l, p t = true → s.startTime ≤ t.startTime := by
  induction l with
  | nil => simp at hf
  | cons a rest ih =>
      rw [List.find?_cons] at hf
      rcases List.pairwise_cons.mp hs with ⟨ha, hrest⟩
      cases hp : p a with
      | true =>
          rw [hp] at hf
          injection hf with hf1
          subst hf1
          intro t ht hpt
          rcases List.mem_cons.mp ht with h1 | h2
          · rw [h1]
          · exact ha t h2
      | false =>
          rw [hp] at hf
          intro t ht hpt
          rcases List.mem_cons.mp ht with h1 | h2
          · rw [h1] at hpt; rw [hpt] at hp; cases hp
          · exact ih hrest hf t h2 hpt

theorem find_map_eq {α β : Type} (f : α → β) (q : β → Bool) (p : α → Bool) :
    ∀ l : List α, (∀ a ∈ l, q (f a) = p a) →
      (l.map f).find? q = (l.find? p).map f := by
  intro l
  induction l with
  | nil => intro _; rfl
  | cons a rest ih =>
      intro h
      simp only [List.map_cons, List.find?_cons]
      have ha := h a (List.mem_cons_self _ _)
      cases hp : p a with
      | true => simp [ha, hp]
      | false =>
          simp only [ha, hp]
          exact ih (fun b hb => h b (List.mem_cons_of_mem _ hb))

theorem findIdx_by_name_of_nodup (l : List MintStage)
    (hnodup : (l.map (fun s => s.category)).Nodup) (s : MintStage) (hmem : s ∈ l) :
    ∃ i, l.findIdx? (fun t => t.category = s.category) = some i ∧
      l.get? i = some s := by
  induction l with
  | nil => simp at hmem
  | cons a rest ih =>
      have hnodup2 := hnodup
      rw [List.map_cons] at hnodup2
      rcases List.nodup_cons.mp hnodup2 with ⟨hnotin, hnodup'⟩
      rcases List.mem_cons.mp hmem with h1 | h2
      · subst h1
        exact ⟨0, by simp, rfl⟩
      · have hne : ¬(a.category = s.category) := by
          intro hcat
          refine hnotin ?_
          rw [hcat]
          exact List.mem_map_of_mem (fun t => t.category) h2
        obtain ⟨i, hfi, hgi⟩ := ih hnodup' h2
        refine ⟨i + 1, ?_, by simpa using hgi⟩
        rw [List.findIdx?_cons]
        rw [if_neg (by simpa using hne)]
        rw [List.findIdx?_succ, hfi]
        rfl

/-- C3: stage selection of `get_active_or_next_mint_stage`, for a collection
whose stages are stored in ascending start-time order with distinct category
names (as `create_collection` builds them).  If some stage's window contains
the clock, the view returns an active stage's name; otherwise, if some stage
still lies in the future, it returns the name of the future stage with the
earliest start time; otherwise (all stages over) it returns `none`. -/
theorem get_active_or_next_stage_spec (c : Collection) (now : Nat)
    (hsort : c.stages.Pairwise (fun a b => a.startTime ≤ b.startTime))
    (hnodup : (c.stages.map (fun s => s.category)).Nodup) :
    ((∃ s ∈ c.stages, stageActive s now = true) →
      ∃ s ∈ c.stages, stageActive s now = true ∧
        get_active_or_next_mint_stage c now = some s.category) ∧
    ((∀ s ∈ c.stages, stageActive s now = false) →
      (∃ s ∈ c.stages, now < s.startTime) →
      ∃ s ∈ c.stages, now < s.startTime ∧
        get_active_or_next_mint_stage c now = some s.category ∧
        ∀ t ∈ c.stages, now < t.startTime → s.startTime ≤ t.startTime) ∧
    ((∀ s ∈ c.stages, stageActive s now = false ∧ ¬now < s.startTime) →
      get_active_or_next_mint_stage c now = none) := by
  have hbridge : ∀ s ∈ c.stages,
      (fun nm =>
        match find_mint_stage_index_by_name c nm with
        | some i =>
            match find_mint_stage_by_index c i with
            | some t => decide (now < t.startTime)
            | none => false
        | none => false) s.category = decide (now < s.startTime) := by
    intro s hmem
    obtain ⟨i, hfi, hgi⟩ := findIdx_by_name_of_nodup c.stages hnodup s hmem
    simp only [find_mint_stage_index_by_name, hfi, find_mint_stage_by_index, hgi]
  have helse : (stageNames c).find? (fun nm =>
      match find_mint_stage_index_by_name c nm with
      | some i =>
          match find_mint_stage_by_index c i with
          | some t => decide (now < t.startTime)
          | none => false
      | none => false) =
      (c.stages.find? (fun s => decide (now < s.startTime))).map
        (fun s => s.category) := by
    exact find_map_eq (fun s => s.category)
      (fun nm =>
        match find_mint_stage_index_by_name c nm with
        | some i =>
            match find_mint_stage_by_index c i with
            | some t => decide (now < t.startTime)
            | none => false
        | none => false)
      (fun s => decide (now < s.startTime)) c.stages hbridge
  refine ⟨?_, ?_, ?_⟩
  · intro hex
    have hsome : (c.stages.findIdx? (fun s => stageActive s now)).isSome = true := by
      rw [List.findIdx?_isSome, List.any_eq_true]
      obtain ⟨s, hmem, hact⟩ := hex
      exact ⟨s, hmem, hact⟩
    obtain ⟨i, hi⟩ := Option.isSome_iff_exists.mp hsome
    obtain ⟨hlt, hact, -⟩ := List.findIdx?_eq_some_iff_getElem.mp hi
    refine ⟨c.stages[i], List.getElem_mem hlt, hact, ?_⟩
    simp only [get_active_or_next_mint_stage, ccurent_active_stage, hi,
      find_mint_stage_by_index, List.get?_eq_getElem?, List.getElem?_eq_getElem hlt,
      Option.map_some']
  · intro hnone hex
    have hcnone : ccurent_active_stage c now = none := by
      simp only [ccurent_active_stage, List.findIdx?_eq_none_iff]
      exact hnone
    have hfsome : (c.stages.find? (fun s => decide (now < s.startTime))).isSome = true := by
      rw [List.find?_isSome]
      obtain ⟨s, hmem, hlt⟩ := hex
      exact ⟨s, hmem, by simpa using hlt⟩
    obtain ⟨s, hs⟩ := Option.isSome_iff_exists.mp hfsome
    refine ⟨s, List.mem_of_find?_eq_some hs, by simpa using List.find?_some hs, ?_, ?_⟩
    · simp only [get_active_or_next_mint_stage, hcnone, helse, hs]
      rfl
    · intro t ht hlt
      exact find_min_start c.stages hsort _ s hs t ht (by simpa using hlt)
  · intro hall
    have hcnone : ccurent_active_stage c now = none := by
      simp only [ccurent_active_stage, List.findIdx?_eq_none_iff]
      exact fun s hmem => (hall s hmem).1
    have hfnone : c.stages.find? (fun s => decide (now < s.startTime)) = none := by
      rw [List.find?_eq_none]
      intro s hmem
      simpa using (hall s hmem).2
    simp only [get_active_or_next_mint_stage, hcnone, helse, hfnone]
    rfl

/-- The result token built by `evolve_nft` (same copy semantics as
`combine_nft`, no `TokenController`). -/
def evolveResultToken (sender mainCol : Addr) (resName : Str)
    (mainTok : TokenData) (mainC : Collection) : TokenData :=
  { collection := mainCol
    name := resName
    description := mainTok.description
    uri := mainTok.uri
    royalty := mainC.royalty
    owner := sender
    hasController := false
    origin := Origin.evolve }

theorem evolve_nft_eq (sender mainCol mainNft : Addr) (st : State)
    (mainC : Collection) (mainTok : TokenData) (resName : Str)
    (hc : alookup st.collections mainCol = some mainC)
    (hm : alookup st.tokens mainNft = some mainTok)
    (hr : rlookup mainC.evolutionRules (mainCol, mainTok.name) = some resName)
    (hsupply : mainC.currentSupply + 1 ≤ mainC.maxSupply) :
    evolve_nft sender mainCol mainNft st =
      (match burnWithController mainNft
          (resultMintState st mainCol mainC
            (evolveResultToken sender mainCol resName mainTok mainC)) with
       | .error e => .error e
       | .ok st2 =>
          .ok ({ st2 with events := st2.events ++
                  [Event.evolveNftEvent mainNft st.nextAddr sender] },
               st.nextAddr)) := by
  simp only [evolve_nft, hc, hm, hr, collectionIncrementSupply,
    if_pos hsupply, resultMintState, evolveResultToken]

theorem evolve_success_spec (sender mainCol mainNft : Addr) (st : State)
    (mainC : Collection) (mainTok : TokenData) (resName : Str)
    (hc : alookup st.collections mainCol = some mainC)
    (hm : alookup st.tokens mainNft = some mainTok)
    (hr : rlookup mainC.evolutionRules (mainCol, mainTok.name) = some resName)
    (hsupply : mainC.currentSupply + 1 ≤ mainC.maxSupply)
    (hmc : mainTok.hasController = true)
    (hmcol : (alookup st.collections mainTok.collection).isSome = true)
    (hmfresh : mainNft ≠ st.nextAddr) :
    ∃ st', evolve_nft sender mainCol mainNft st = .ok (st', st.nextAddr) ∧
      alookup st'.tokens st.nextAddr =
        some (evolveResultToken sender mainCol resName mainTok mainC) ∧
      alookup st'.tokens mainNft = none ∧
      st'.events = st.events ++
        [Event.evolveNftEvent mainNft st.nextAddr sender] := by
  have heq := evolve_nft_eq sender mainCol mainNft st mainC mainTok resName
    hc hm hr hsupply
  have ht1 : alookup (resultMintState st mainCol mainC
      (evolveResultToken sender mainCol resName mainTok mainC)).tokens mainNft =
      some mainTok := by
    simp only [resultMintState, alookup]
    rw [if_neg (fun hh => hmfresh hh.symm)]
    exact hm
  have hcol1 : (alookup (resultMintState st mainCol mainC
      (evolveResultToken sender mainCol resName mainTok mainC)).collections
      mainTok.collection).isSome = true := by
    simp only [resultMintState]
    exact alookup_aupdate_isSome _ _ _ _ hmcol
  obtain ⟨st2, hb2, htok2, hev2, hnx2, -, -, -, -⟩ :=
    burnWithController_parts mainNft
      (resultMintState st mainCol mainC
        (evolveResultToken sender mainCol resName mainTok mainC))
      mainTok ht1 hmc hcol1
  refine ⟨{ st2 with events := st2.events ++
      [Event.evolveNftEvent mainNft st.nextAddr sender] }, ?_, ?_, ?_, ?_⟩
  · simp only [heq, hb2]
  · dsimp only
    rw [htok2, alookup_aerase _ _ _ hmfresh.symm]
    simp [resultMintState, alookup]
  · dsimp only
    rw [htok2]
    exact alookup_aerase_self _ _
  · dsimp only
    rw [hev2]
    rfl

/-! ### Reachability invariants -/

/-- Per-token invariant: tokens created by `mint_nft` carry a
`TokenController`, and every token's collection object exists. -/
def TokenOk (st : State) (t : TokenData) : Prop :=
  (t.origin = Origin.mint → t.hasController = true) ∧
  (alookup st.collections t.collection).isSome = true

/-- Invariant of reachable states: object addresses in use lie below the
fresh-address counter, and every live token satisfies `TokenOk`. -/
def StateInv (st : State) : Prop :=
  (∀ p ∈ st.collections, p.1 < st.nextAddr) ∧
  (∀ p ∈ st.tokens, p.1 < st.nextAddr ∧ TokenOk st p.2)

/-- Collection lookups that succeed keep succeeding across a step. -/
def CollGrow (st st' : State) : Prop :=
  ∀ k, (alookup st.collections k).isSome = true →
    (alookup st'.collections k).isSome = true

/-- Per-collection NFT counters never decrease across a step. -/
def nftsMono (l l' : List (Addr × Collection)) : Prop :=
  ∀ k c, alookup l k = some c →
    ∃ c', alookup l' k = some c' ∧ c.nfts ≤ c'.nfts

/-- Footprint of a successful step: collection lookups grow, the
fresh-address counter grows, NFT counters never decrease. -/
def StepOk (st st' : State) : Prop :=
  CollGrow st st' ∧ st.nextAddr ≤ st'.nextAddr ∧
    nftsMono st.collections st'.collections

theorem nftsMono_refl (l : List (Addr × Collection)) : nftsMono l l :=
  fun _ c h => ⟨c, h, le_refl _⟩

theorem nftsMono_trans {l1 l2 l3 : List (Addr × Collection)}
    (h1 : nftsMono l1 l2) (h2 : nftsMono l2 l3) : nftsMono l1 l3 := by
  intro k c hk
  obtain ⟨c2, hk2, hle2⟩ := h1 k c hk
  obtain ⟨c3, hk3, hle3⟩ := h2 k c2 hk2
  exact ⟨c3, hk3, le_trans hle2 hle3⟩

theorem nftsMono_aupdate (l : List (Addr × Collection)) (key : Addr)
    (c0 c1 : Collection) (hl : alookup l key = some c0)
    (hn : c0.nfts ≤ c1.nfts) : nftsMono l (aupdate l key c1) := by
  intro k c hk
  by_cases hkey : k = key
  · subst hkey
    rw [hk] at hl
    injection hl with h0
    exact ⟨c1, alookup_aupdate_self _ _ _, by rw [h0]; exact hn⟩
  · exact ⟨c, by rw [alookup_aupdate_ne _ _ _ _ hkey]; exact hk, le_refl _⟩

theorem nftsMono_cons (l : List (Addr × Collection)) (key : Addr) (c1 : Collection)
    (hnone : alookup l key = none) : nftsMono l ((key, c1) :: l) := by
  intro k c hk
  have hne : ¬key = k := by
    intro hh
    rw [hh, hk] at hnone
    cases hnone
  refine ⟨c, ?_, le_refl _⟩
  simp only [alookup]
  rw [if_neg hne]
  exact hk

theorem alookup_lt_none {β : Type} (l : List (Addr × β)) (n : Nat)
    (h : ∀ p ∈ l, p.1 < n) : alookup l n = none := by
  induction l with
  | nil => rfl
  | cons p rest ih =>
      simp only [alookup]
      have hp := h p (List.mem_cons_self _ _)
      have hne : ¬p.1 = n := fun hh => Nat.lt_irrefl n (hh ▸ hp)
      rw [if_neg hne]
      exact ih (fun q hq => h q (List.mem_cons_of_mem _ hq))

theorem StepOk_refl (st : State) : StepOk st st :=
  ⟨fun _ h => h, le_refl _, nftsMono_refl _⟩

theorem StepOk_trans {st1 st2 st3 : State} (h1 : StepOk st1 st2)
    (h2 : StepOk st2 st3) : StepOk st1 st3 :=
  ⟨fun k hk => h2.1 k (h1.1 k hk), le_trans h1.2.1 h2.2.1,
    nftsMono_trans h1.2.2 h2.2.2⟩

theorem StepOk_of_eq (st st' : State) (hcol : st'.collections = st.collections)
    (hnx : st'.nextAddr = st.nextAddr) : StepOk st st' := by
  refine ⟨fun k hk => by rw [hcol]; exact hk, by rw [hnx], ?_⟩
  rw [hcol]
  exact nftsMono_refl _

theorem StateInv_congr (st st' : State) (hcol : st'.collections = st.collections)
    (htok : st'.tokens = st.tokens) (hnx : st'.nextAddr = st.nextAddr)
    (hinv : StateInv st) : StateInv st' := by
  constructor
  · intro p hp
    rw [hcol] at hp
    rw [hnx]
    exact hinv.1 p hp
  · intro p hp
    rw [htok] at hp
    obtain ⟨hlt, hok⟩ := hinv.2 p hp
    refine ⟨by rw [hnx]; exact hlt, hok.1, ?_⟩
    show (alookup st'.collections p.2.collection).isSome = true
    rw [hcol]
    exact hok.2

theorem aupdate_existing_inv (st : State) (col : Addr) (c c1 : Collection)
    (hc : alookup st.collections col = some c) (hn : c.nfts ≤ c1.nfts)
    (hinv : StateInv st) :
    StateInv { st with collections := aupdate st.collections col c1 } ∧
    StepOk st { st with collections := aupdate st.collections col c1 } := by
  refine ⟨⟨?_, ?_⟩, ?_, le_refl _, nftsMono_aupdate _ _ _ _ hc hn⟩
  · intro p hp
    rcases mem_aupdate _ _ _ _ hp with h2 | h3
    · rw [h2]
      have hmem := hinv.1 _ (alookup_some_mem _ _ _ hc)
      exact hmem
    · exact hinv.1 _ h3
  · intro p hp
    obtain ⟨hlt, hok⟩ := hinv.2 p hp
    exact ⟨hlt, hok.1, alookup_aupdate_isSome _ _ _ _ hok.2⟩
  · intro k hk
    exact alookup_aupdate_isSome _ _ _ _ hk

theorem burnWithController_inv (a : Addr) (st st' : State)
    (h : burnWithController a st = .ok st') (hinv : StateInv st) :
    StateInv st' ∧ StepOk st st' := by
  cases ht : alookup st.tokens a with
  | none => simp only [burnWithController, ht] at h; cases h
  | some t =>
      by_cases hctrl : t.hasController = true
      · cases hcc : alookup st.collections t.collection with
        | none =>
            simp only [burnWithController, ht, hctrl, if_true, hcc] at h
            cases h
        | some c =>
            simp only [burnWithController, ht, hctrl, if_true, hcc,
              Except.ok.injEq] at h
            subst h
            refine ⟨⟨?_, ?_⟩, ?_, le_refl _, ?_⟩
            · intro p hp
              rcases mem_aupdate _ _ _ _ hp with h2 | h3
              · rw [h2]
                have hmem := hinv.1 _ (alookup_some_mem _ _ _ hcc)
                exact hmem
              · exact hinv.1 _ h3
            · intro p hp
              obtain ⟨hlt, hok⟩ := hinv.2 p (mem_aerase _ _ _ hp)
              exact ⟨hlt, hok.1, alookup_aupdate_isSome _ _ _ _ hok.2⟩
            · intro k hk
              exact alookup_aupdate_isSome _ _ _ _ hk
            · exact nftsMono_aupdate _ _ _ _ hcc (le_refl _)
      · simp only [burnWithController, ht] at h
        rw [if_neg hctrl] at h
        cases h

theorem resultMintState_inv (st : State) (mcAddr : Addr) (mainC : Collection)
    (tok : TokenData) (hc : alookup st.collections mcAddr = some mainC)
    (hmint : tok.origin = Origin.mint → tok.hasController = true)
    (hcolok : (alookup st.collections tok.collection).isSome = true)
    (hinv : StateInv st) :
    StateInv (resultMintState st mcAddr mainC tok) ∧
    StepOk st (resultMintState st mcAddr mainC tok) := by
  refine ⟨⟨?_, ?_⟩, ?_, Nat.le_succ _, nftsMono_aupdate _ _ _ _ hc (le_refl _)⟩
  · intro p hp
    rcases mem_aupdate _ _ _ _ hp with h2 | h3
    · rw [h2]
      have hmem := hinv.1 _ (alookup_some_mem _ _ _ hc)
      exact Nat.lt_succ_of_lt hmem
    · exact Nat.lt_succ_of_lt (hinv.1 _ h3)
  · intro p hp
    rcases List.mem_cons.mp hp with h1 | h2
    · subst h1
      exact ⟨Nat.lt_succ_self _, hmint,
        alookup_aupdate_isSome _ _ _ _ hcolok⟩
    · obtain ⟨hlt, hok⟩ := hinv.2 p h2
      exact ⟨Nat.lt_succ_of_lt hlt, hok.1,
        alookup_aupdate_isSome _ _ _ _ hok.2⟩
  · intro k hk
    exact alookup_aupdate_isSome _ _ _ _ hk

theorem mint_nft_internal_inv (tn : Str) (snd col : Addr) (st st' : State)
    (a : Addr) (h : mint_nft_internal tn snd col st = .ok (st', a))
    (hinv : StateInv st) : StateInv st' ∧ StepOk st st' := by
  cases hc : alookup st.collections col with
  | none => simp only [mint_nft_internal, hc] at h; cases h
  | some c =>
      by_cases hle : c.currentSupply + 1 ≤ c.maxSupply
      · simp only [mint_nft_internal, hc, collectionIncrementSupply, if_pos hle,
          Except.ok.injEq, Prod.mk.injEq] at h
        obtain ⟨h1, -⟩ := h
        subst h1
        refine ⟨⟨?_, ?_⟩, ?_, Nat.le_succ _, ?_⟩
        · intro p hp
          rcases mem_aupdate _ _ _ _ hp with h2 | h3
          · rw [h2]
            have hmem := hinv.1 _ (alookup_some_mem _ _ _ hc)
            exact Nat.lt_succ_of_lt hmem
          · exact Nat.lt_succ_of_lt (hinv.1 _ h3)
        · intro p hp
          rcases List.mem_cons.mp hp with h1 | h2
          · subst h1
            refine ⟨Nat.lt_succ_self _, fun _ => rfl, ?_⟩
            show (alookup (aupdate st.collections col _) col).isSome = true
            rw [alookup_aupdate_self]
            rfl
          · obtain ⟨hlt, hok⟩ := hinv.2 p h2
            exact ⟨Nat.lt_succ_of_lt hlt, hok.1,
              alookup_aupdate_isSome _ _ _ _ hok.2⟩
        · intro k hk
          exact alookup_aupdate_isSome _ _ _ _ hk
        · exact nftsMono_aupdate _ _ _ _ hc (Nat.le_succ _)
      · simp only [mint_nft_internal, hc, collectionIncrementSupply,
          if_neg hle] at h
        cases h

theorem mintLoop_inv (tn : Str) (snd col : Addr) :
    ∀ (n : Nat) (st : State) (acc : List Addr) (st' : State) (objs : List Addr),
      mintLoop tn snd col n st acc = .ok (st', objs) → StateInv st →
      StateInv st' ∧ StepOk st st' := by
  intro n
  induction n with
  | zero =>
      intro st acc st' objs h hinv
      simp only [mintLoop, Except.ok.injEq, Prod.mk.injEq] at h
      obtain ⟨h1, -⟩ := h
      subst h1
      exact ⟨hinv, StepOk_refl _⟩
  | succ m ih =>
      intro st acc st' objs h hinv
      simp only [mintLoop] at h
      cases hmi : mint_nft_internal tn snd col st with
      | error e => simp only [hmi] at h; cases h
      | ok p =>
          obtain ⟨st1, a1⟩ := p
          simp only [hmi] at h
          obtain ⟨hinv1, hstep1⟩ := mint_nft_internal_inv tn snd col st st1 a1 hmi hinv
          obtain ⟨hinv2, hstep2⟩ := ih st1 (acc ++ [a1]) st' objs h hinv1
          exact ⟨hinv2, StepOk_trans hstep1 hstep2⟩

theorem pay_for_mint_frame (sender : Addr) (fee : Nat) (st st' : State)
    (h : pay_for_mint sender fee st = .ok st') :
    st'.collections = st.collections ∧ st'.tokens = st.tokens ∧
    st'.nextAddr = st.nextAddr := by
  simp only [pay_for_mint, coinTransfer] at h
  split at h
  · split at h
    · injection h with h1
      rw [← h1]
      exact ⟨rfl, rfl, rfl⟩
    · cases h
  · injection h with h1
    rw [← h1]
    exact ⟨rfl, rfl, rfl⟩

theorem mint_nft_inv (sender : Addr) (tn : Str) (col : Addr) (amount : Nat)
    (st st' : State) (objs : List Addr)
    (h : mint_nft sender tn col amount st = .ok (st', objs))
    (hinv : StateInv st) : StateInv st' ∧ StepOk st st' := by
  cases hc : alookup st.collections col with
  | none => simp only [mint_nft, hc] at h; cases h
  | some c =>
      simp only [mint_nft, hc] at h
      cases hex : execute_earliest_stage sender c amount st.now with
      | none => simp only [hex] at h; cases h
      | some p =>
          obtain ⟨i, c1⟩ := p
          simp only [hex] at h
          obtain ⟨-, -, hnft1, -⟩ :=
            execute_earliest_stage_fields sender c amount st.now i c1 hex
          cases hst : find_mint_stage_by_index c1 i with
          | none => simp only [hst] at h; cases h
          | some stage =>
              simp only [hst] at h
              cases hfee : get_mint_fee c1 stage.category amount with
              | error e => simp only [hfee] at h; cases h
              | ok fee =>
                  simp only [hfee] at h
                  cases hpay : pay_for_mint sender fee
                      { st with collections := aupdate st.collections col c1 } with
                  | error e => simp only [hpay] at h; cases h
                  | ok st2 =>
                      simp only [hpay] at h
                      cases hloop : mintLoop tn sender col amount st2 [] with
                      | error e => simp only [hloop] at h; cases h
                      | ok q =>
                          obtain ⟨st3, objs3⟩ := q
                          simp only [hloop, Except.ok.injEq, Prod.mk.injEq] at h
                          obtain ⟨h1, -⟩ := h
                          subst h1
                          obtain ⟨hinv1, hstep1⟩ := aupdate_existing_inv st col c c1
                            hc (le_of_eq hnft1.symm) hinv
                          obtain ⟨hcol2, htok2, hnx2⟩ :=
                            pay_for_mint_frame sender fee _ st2 hpay
                          have hinv2 : StateInv st2 :=
                            StateInv_congr _ st2 hcol2 htok2 hnx2 hinv1
                          have hstep2 : StepOk
                              { st with collections := aupdate st.collections col c1 }
                              st2 := StepOk_of_eq _ _ hcol2 hnx2
                          obtain ⟨hinv3, hstep3⟩ :=
                            mintLoop_inv tn sender col amount st2 [] st3 objs3 hloop hinv2
                          exact ⟨hinv3, StepOk_trans hstep1 (StepOk_trans hstep2 hstep3)⟩

theorem create_collection_ok_shape (sender : Addr) (description name uri : Str)
    (max_supply : Nat) (royalty_percentage : Option Nat)
    (allowlist : Option (List Addr))
    (alStart alEnd alLimit alFee pubStart pubEnd pubLimit pubFee : Option Nat)
    (st st' : State) (obj : Addr)
    (h : create_collection sender description name uri max_supply
      royalty_percentage allowlist alStart alEnd alLimit alFee pubStart pubEnd
      pubLimit pubFee st = .ok (st', obj)) :
    ∃ c2, st' = { st with
        collections := (st.nextAddr + 1, c2) :: st.collections
        registry := st.registry ++ [st.nextAddr + 1]
        nextAddr := st.nextAddr + 2
        events := st.events ++
          [Event.createCollectionEvent sender st.nextAddr (st.nextAddr + 1)
            max_supply name description uri allowlist alStart alEnd alLimit alFee
            pubStart pubEnd pubLimit pubFee] } ∧
      obj = st.nextAddr + 1 := by
  simp only [create_collection] at h
  split at h
  · split at h
    · cases h
    · split at h
      · cases h
      · simp only [Except.ok.injEq, Prod.mk.injEq] at h
        exact ⟨_, h.1.symm, h.2.symm⟩
  · cases h

theorem create_collection_inv (sender : Addr) (description name uri : Str)
    (max_supply : Nat) (royalty_percentage : Option Nat)
    (allowlist : Option (List Addr))
    (alStart alEnd alLimit alFee pubStart pubEnd pubLimit pubFee : Option Nat)
    (st st' : State) (obj : Addr)
    (h : create_collection sender description name uri max_supply
      royalty_percentage allowlist alStart alEnd alLimit alFee pubStart pubEnd
      pubLimit pubFee st = .ok (st', obj))
    (hinv : StateInv st) : StateInv st' ∧ StepOk st st' := by
  obtain ⟨c2, h1, -⟩ := create_collection_ok_shape sender description name uri
    max_supply royalty_percentage allowlist alStart alEnd alLimit alFee pubStart
    pubEnd pubLimit pubFee st st' obj h
  subst h1
  have hfresh : alookup st.collections (st.nextAddr + 1) = none :=
    alookup_lt_none st.collections (st.nextAddr + 1)
      (fun p hp => Nat.lt_succ_of_lt (hinv.1 p hp))
  refine ⟨⟨?_, ?_⟩, ?_, Nat.le_add_right _ 2, nftsMono_cons _ _ _ hfresh⟩
  · intro p hp
    rcases List.mem_cons.mp hp with h2 | h3
    · rw [h2]
      show st.nextAddr + 1 < st.nextAddr + 2
      exact Nat.lt_succ_self _
    · have h4 := hinv.1 p h3
      show p.1 < st.nextAddr + 2
      exact Nat.lt_succ_of_lt (Nat.lt_succ_of_lt h4)
  · intro p hp
    obtain ⟨hlt, hok⟩ := hinv.2 p hp
    refine ⟨?_, hok.1, ?_⟩
    · show p.1 < st.nextAddr + 2
      exact Nat.lt_succ_of_lt (Nat.lt_succ_of_lt hlt)
    · exact alookup_cons_isSome _ _ _ _ hok.2
  · intro k hk
    exact alookup_cons_isSome _ _ _ _ hk

theorem combine_nft_inv (sender mc sc mn sn : Addr) (st st' : State) (a : Addr)
    (h : combine_nft sender mc sc mn sn st = .ok (st', a))
    (hinv : StateInv st) : StateInv st' ∧ StepOk st st' := by
  cases hc : alookup st.collections mc with
  | none => simp only [combine_nft, hc] at h; cases h
  | some mainC =>
  cases hm : alookup st.tokens mn with
  | none => simp only [combine_nft, hc, hm] at h; cases h
  | some mainTok =>
  cases hs : alookup st.tokens sn with
  | none => simp only [combine_nft, hc, hm, hs] at h; cases h
  | some secTok =>
  cases hr : rlookup mainC.combinationRules (mc, mainTok.name, sc, secTok.name) with
  | none => simp only [combine_nft, hc, hm, hs, hr] at h; cases h
  | some resName =>
  by_cases hle : mainC.currentSupply + 1 ≤ mainC.maxSupply
  · rw [combine_nft_eq sender mc sc mn sn st mainC mainTok secTok resName
      hc hm hs hr hle] at h
    obtain ⟨hinv1, hstep1⟩ := resultMintState_inv st mc mainC
      (combineResultToken sender mc resName mainTok mainC) hc
      (fun hor => by cases hor)
      (show (alookup st.collections mc).isSome = true by rw [hc]; rfl) hinv
    cases hb2 : burnWithController mn (resultMintState st mc mainC
        (combineResultToken sender mc resName mainTok mainC)) with
    | error e => simp only [hb2] at h; cases h
    | ok st2 =>
        simp only [hb2] at h
        obtain ⟨hinv2, hstep2⟩ := burnWithController_inv mn _ st2 hb2 hinv1
        cases hb3 : burnWithController sn st2 with
        | error e => simp only [hb3] at h; cases h
        | ok st3 =>
            simp only [hb3, Except.ok.injEq, Prod.mk.injEq] at h
            obtain ⟨h1, -⟩ := h
            subst h1
            obtain ⟨hinv3, hstep3⟩ := burnWithController_inv sn st2 st3 hb3 hinv2
            exact ⟨hinv3, StepOk_trans hstep1 (StepOk_trans hstep2 hstep3)⟩
  · simp only [combine_nft, hc, hm, hs, hr, collectionIncrementSupply,
      if_neg hle] at h
    cases h

theorem evolve_nft_inv (sender mc mn : Addr) (st st' : State) (a : Addr)
    (h : evolve_nft sender mc mn st = .ok (st', a))
    (hinv : StateInv st) : StateInv st' ∧ StepOk st st' := by
  cases hc : alookup st.collections mc with
  | none => simp only [evolve_nft, hc] at h; cases h
  | some mainC =>
  cases hm : alookup st.tokens mn with
  | none => simp only [evolve_nft, hc, hm] at h; cases h
  | some mainTok =>
  cases hr : rlookup mainC.evolutionRules (mc, mainTok.name) with
  | none => simp only [evolve_nft, hc, hm, hr] at h; cases h
  | some resName =>
  by_cases hle : mainC.currentSupply + 1 ≤ mainC.maxSupply
  · rw [evolve_nft_eq sender mc mn st mainC mainTok resName hc hm hr hle] at h
    obtain ⟨hinv1, hstep1⟩ := resultMintState_inv st mc mainC
      (evolveResultToken sender mc resName mainTok mainC) hc
      (fun hor => by cases hor)
      (show (alookup st.collections mc).isSome = true by rw [hc]; rfl) hinv
    cases hb2 : burnWithController mn (resultMintState st mc mainC
        (evolveResultToken sender mc resName mainTok mainC)) with
    | error e => simp only [hb2] at h; cases h
    | ok st2 =>
        simp only [hb2, Except.ok.injEq, Prod.mk.injEq] at h
        obtain ⟨h1, -⟩ := h
        subst h1
        obtain ⟨hinv2, hstep2⟩ := burnWithController_inv mn _ st2 hb2 hinv1
        exact ⟨hinv2, StepOk_trans hstep1 hstep2⟩
  · simp only [evolve_nft, hc, hm, hr, collectionIncrementSupply,
      if_neg hle] at h
    cases h

theorem add_combination_rule_inv (sender mc : Addr) (mt : Str) (sc : Addr)
    (sct rt : Str) (st st' : State)
    (h : add_combination_rule sender mc mt sc sct rt st = .ok st')
    (hinv : StateInv st) : StateInv st' ∧ StepOk st st' := by
  cases hc : alookup st.collections mc with
  | none => simp only [add_combination_rule, hc] at h; cases h
  | some c =>
      simp only [add_combination_rule, hc] at h
      split at h
      · cases h
      · injection h with h1
        subst h1
        exact aupdate_existing_inv st mc c _ hc (le_refl _) hinv

theorem add_evolution_rule_inv (sender mc : Addr) (mt rt : Str) (st st' : State)
    (h : add_evolution_rule sender mc mt rt st = .ok st')
    (hinv : StateInv st) : StateInv st' ∧ StepOk st st' := by
  cases hc : alookup st.collections mc with
  | none => simp only [add_evolution_rule, hc] at h; cases h
  | some c =>
      simp only [add_evolution_rule, hc] at h
      split at h
      · cases h
      · injection h with h1
        subst h1
        exact aupdate_existing_inv st mc c _ hc (le_refl _) hinv

theorem config_update_inv (st : State) (cfg : Config)
    (hinv : StateInv st) :
    StateInv { st with config := cfg } ∧ StepOk st { st with config := cfg } :=
  ⟨StateInv_congr st _ rfl rfl rfl hinv, StepOk_of_eq _ _ rfl rfl⟩

theorem run_inv (op : Op) (st st' : State) (h : run op st = .ok st')
    (hinv : StateInv st) : StateInv st' ∧ StepOk st st' := by
  cases op with
  | createCollection sender description name uri max_supply royalty_percentage
      allowlist alStart alEnd alLimit alFee pubStart pubEnd pubLimit pubFee =>
      simp only [run] at h
      cases hcc : create_collection sender description name uri max_supply
          royalty_percentage allowlist alStart alEnd alLimit alFee pubStart
          pubEnd pubLimit pubFee st with
      | error e => simp only [hcc, Except.map] at h; cases h
      | ok p =>
          obtain ⟨st1, obj⟩ := p
          simp only [hcc, Except.map, Except.ok.injEq] at h
          subst h
          exact create_collection_inv _ _ _ _ _ _ _ _ _ _ _ _ _ _ _ st st1 obj
            hcc hinv
  | mintNft sender tn col amount =>
      simp only [run] at h
      cases hcc : mint_nft sender tn col amount st with
      | error e => simp only [hcc, Except.map] at h; cases h
      | ok p =>
          obtain ⟨st1, objs⟩ := p
          simp only [hcc, Except.map, Except.ok.injEq] at h
          subst h
          exact mint_nft_inv sender tn col amount st st1 objs hcc hinv
  | combineNft sender mc sc mn sn =>
      simp only [run] at h
      cases hcc : combine_nft sender mc sc mn sn st with
      | error e => simp only [hcc, Except.map] at h; cases h
      | ok p =>
          obtain ⟨st1, a⟩ := p
          simp only [hcc, Except.map, Except.ok.injEq] at h
          subst h
          exact combine_nft_inv sender mc sc mn sn st st1 a hcc hinv
  | evolveNft sender mc mn =>
      simp only [run] at h
      cases hcc : evolve_nft sender mc mn st with
      | error e => simp only [hcc, Except.map] at h; cases h
      | ok p =>
          obtain ⟨st1, a⟩ := p
          simp only [hcc, Except.map, Except.ok.injEq] at h
          subst h
          exact evolve_nft_inv sender mc mn st st1 a hcc hinv
  | addCombinationRule sender mc mt sc sct rt =>
      simp only [run] at h
      exact add_combination_rule_inv sender mc mt sc sct rt st st' h hinv
  | addEvolutionRule sender mc mt rt =>
      simp only [run] at h
      exact add_evolution_rule_inv sender mc mt rt st st' h hinv
  | updateCreator sender nc =>
      simp only [run, update_creator] at h
      split at h
      · injection h with h1
        subst h1
        exact config_update_inv st _ hinv
      · cases h
  | setPendingAdmin sender na =>
      simp only [run, set_pending_admin] at h
      split at h
      · injection h with h1
        subst h1
        exact config_update_inv st _ hinv
      · cases h
  | acceptAdmin sender =>
      simp only [run, accept_admin] at h
      split at h
      · injection h with h1
        subst h1
        exact config_update_inv st _ hinv
      · cases h
  | updateMintFeeCollector sender nc =>
      simp only [run, update_mint_fee_collector] at h
      split at h
      · injection h with h1
        subst h1
        exact config_update_inv st _ hinv
      · cases h
  | advanceTime delta =>
      simp only [run, Except.ok.injEq] at h
      subst h
      exact ⟨StateInv_congr st _ rfl rfl rfl hinv, StepOk_of_eq _ _ rfl rfl⟩
  | fund account amount =>
      simp only [run, Except.ok.injEq] at h
      subst h
      exact ⟨StateInv_congr st _ rfl rfl rfl hinv, StepOk_of_eq _ _ rfl rfl⟩

theorem exec_inv (op : Op) (st : State) (hinv : StateInv st) :
    StateInv (exec op st) ∧ StepOk st (exec op st) := by
  cases hrun : run op st with
  | error e =>
      simp only [exec, hrun]
      exact ⟨hinv, StepOk_refl _⟩
  | ok st' =>
      simp only [exec, hrun]
      exact run_inv op st st' hrun hinv

theorem reachable_inv (st : State) (h : Reachable st) : StateInv st := by
  induction h with
  | init d c =>
      constructor
      · intro p hp
        simp [init_module] at hp
      · intro p hp
        simp [init_module] at hp
  | step st1 op hr ih => exact (exec_inv op st1 ih).1

theorem construct_uri_subst (dir : Str) (k : Nat) :
    construct_nft_metadata_uri (dir ++ "collection.json".data) k =
      dir ++ (Nat.repr k).data ++ ".json".data := by
  simp only [construct_nft_metadata_uri, List.length_append, Nat.add_sub_cancel,
    List.take_left]

/-- C8: each `mint_nft` unit mint allocates the next sequential index — the
`CollectionNftCounter` value plus one — and builds the token's metadata URI
by replacing the trailing `collection.json` piece of the collection URI with
`<index>.json`; the counter advances by exactly one per mint (so the k-th
mint of a collection gets index k, 1-based) and, across every public
operation from any reachable state, the counter never decreases, so indices
are never reused even after burns. -/
theorem mint_sequential_index_and_uri :
    (∀ (tn : Str) (snd col : Addr) (st st' : State) (a : Addr) (c : Collection)
      (dir : Str),
      alookup st.collections col = some c →
      c.uri = dir ++ ("collection.json".data) →
      mint_nft_internal tn snd col st = .ok (st', a) →
      a = st.nextAddr ∧
      (∃ t, alookup st'.tokens a = some t ∧
        t.uri = dir ++ (Nat.repr (c.nfts + 1)).data ++ ".json".data) ∧
      (∃ c', alookup st'.collections col = some c' ∧ c'.nfts = c.nfts + 1)) ∧
    (∀ (op : Op) (st : State) (col : Addr) (c c' : Collection),
      Reachable st →
      alookup st.collections col = some c →
      alookup (exec op st).collections col = some c' →
      c.nfts ≤ c'.nfts) := by
  constructor
  · intro tn snd col st st' a c dir hc huri h
    by_cases hle : c.currentSupply + 1 ≤ c.maxSupply
    · simp only [mint_nft_internal, hc, collectionIncrementSupply, if_pos hle,
        Except.ok.injEq, Prod.mk.injEq] at h
      obtain ⟨h1, h2⟩ := h
      subst h2
      subst h1
      refine ⟨rfl, ?_, ⟨_, alookup_aupdate_self _ _ _, rfl⟩⟩
      refine ⟨{ collection := col, name := tn,
                description := (Nat.repr (c.nfts + 1)).data,
                uri := construct_nft_metadata_uri c.uri (c.nfts + 1),
                royalty := c.royalty, owner := snd, hasController := true,
                origin := Origin.mint }, ?_, ?_⟩
      · show alookup ((st.nextAddr, _) :: st.tokens) st.nextAddr = some _
        simp [alookup]
      · show construct_nft_metadata_uri c.uri (c.nfts + 1) =
          dir ++ (Nat.repr (c.nfts + 1)).data ++ ".json".data
        rw [huri]
        exact construct_uri_subst dir (c.nfts + 1)
    · simp only [mint_nft_internal, hc, collectionIncrementSupply,
        if_neg hle] at h
      cases h
  · intro op st col c c' hr hc hc'
    obtain ⟨c2, hc2, hle⟩ :=
      (exec_inv op st (reachable_inv st hr)).2.2.2 col c hc
    rw [hc'] at hc2
    injection hc2 with h0
    rw [h0]
    exact hle

theorem burnWithController_no_controller (a : Addr) (st : State) (t : TokenData)
    (ht : alookup st.tokens a = some t) (hctrl : t.hasController = false) :
    burnWithController a st = .error .missingResource := by
  simp only [burnWithController, ht, hctrl]
  rfl

/-- C10: in every reachable state, every live token created by `mint_nft`
carries a `TokenController` at its address (conjunct 1), so the
capability-extraction step of `combine_nft` on two mint-created inputs
cannot abort (conjunct 6); tokens created by `combine_nft` and `evolve_nft`
never receive a `TokenController` (conjuncts 2 and 3); and a later
`combine_nft` or `evolve_nft` taking a controller-less token as the main
input — or `combine_nft` taking one as the secondary input — aborts at the
`move_from` of the `TokenController` (conjuncts 4, 5 of the combine cases
and the final evolve case). -/
theorem token_controller_lifecycle :
    (∀ st : State, Reachable st → ∀ p ∈ st.tokens,
      p.2.origin = Origin.mint → p.2.hasController = true) ∧
    (∀ (sender mainCol secCol mainNft secNft : Addr) (st : State)
      (mainC : Collection) (mainTok secTok : TokenData) (resName : Str),
      alookup st.collections mainCol = some mainC →
      alookup st.tokens mainNft = some mainTok →
      alookup st.tokens secNft = some secTok →
      rlookup mainC.combinationRules
        (mainCol, mainTok.name, secCol, secTok.name) = some resName →
      mainC.currentSupply + 1 ≤ mainC.maxSupply →
      mainTok.hasController = true → secTok.hasController = true →
      (alookup st.collections mainTok.collection).isSome = true →
      (alookup st.collections secTok.collection).isSome = true →
      mainNft ≠ secNft → mainNft ≠ st.nextAddr → secNft ≠ st.nextAddr →
      ∃ st' t, combine_nft sender mainCol secCol mainNft secNft st =
          .ok (st', st.nextAddr) ∧
        alookup st'.tokens st.nextAddr = some t ∧
        t.hasController = false ∧ t.origin = Origin.combine) ∧
    (∀ (sender mainCol mainNft : Addr) (st : State) (mainC : Collection)
      (mainTok : TokenData) (resName : Str),
      alookup st.collections mainCol = some mainC →
      alookup st.tokens mainNft = some mainTok →
      rlookup mainC.evolutionRules (mainCol, mainTok.name) = some resName →
      mainC.currentSupply + 1 ≤ mainC.maxSupply →
      mainTok.hasController = true →
      (alookup st.collections mainTok.collection).isSome = true →
      mainNft ≠ st.nextAddr →
      ∃ st' t, evolve_nft sender mainCol mainNft st = .ok (st', st.nextAddr) ∧
        alookup st'.tokens st.nextAddr = some t ∧
        t.hasController = false ∧ t.origin = Origin.evolve) ∧
    (∀ (sender mainCol secCol mainNft secNft : Addr) (st : State)
      (mainC : Collection) (mainTok secTok : TokenData) (resName : Str),
      alookup st.collections mainCol = some mainC →
      alookup st.tokens mainNft = some mainTok →
      alookup st.tokens secNft = some secTok →
      rlookup mainC.combinationRules
        (mainCol, mainTok.name, secCol, secTok.name) = some resName →
      mainC.currentSupply + 1 ≤ mainC.maxSupply →
      mainTok.hasController = false →
      mainNft ≠ st.nextAddr →
      combine_nft sender mainCol secCol mainNft secNft st =
        .error .missingResource) ∧
    (∀ (sender mainCol secCol mainNft secNft : Addr) (st : State)
      (mainC : Collection) (mainTok secTok : TokenData) (resName : Str),
      alookup st.collections mainCol = some mainC →
      alookup st.tokens mainNft = some mainTok →
      alookup st.tokens secNft = some secTok →
      rlookup mainC.combinationRules
        (mainCol, mainTok.name, secCol, secTok.name) = some resName →
      mainC.currentSupply + 1 ≤ mainC.maxSupply →
      mainTok.hasController = true →
      secTok.hasController = false →
      (alookup st.collections mainTok.collection).isSome = true →
      mainNft ≠ secNft → mainNft ≠ st.nextAddr → secNft ≠ st.nextAddr →
      combine_nft sender mainCol secCol mainNft secNft st =
        .error .missingResource) ∧
    (∀ (sender mainCol mainNft : Addr) (st : State) (mainC : Collection)
      (mainTok : TokenData) (resName : Str),
      alookup st.collections mainCol = some mainC →
      alookup st.tokens mainNft = some mainTok →
      rlookup mainC.evolutionRules (mainCol, mainTok.name) = some resName →
      mainC.currentSupply + 1 ≤ mainC.maxSupply →
      mainTok.hasController = false →
      mainNft ≠ st.nextAddr →
      evolve_nft sender mainCol mainNft st = .error .missingResource) ∧
    (∀ (sender mainCol secCol mainNft secNft : Addr) (st : State)
      (mainC : Collection) (mainTok secTok : TokenData),
      Reachable st →
      alookup st.collections mainCol = some mainC →
      alookup st.tokens mainNft = some mainTok →
      alookup st.tokens secNft = some secTok →
      mainTok.origin = Origin.mint → secTok.origin = Origin.mint →
      mainNft ≠ secNft →
      combine_nft sender mainCol secCol mainNft secNft st ≠
        .error .missingResource) := by
  refine ⟨?_, ?_, ?_, ?_, ?_, ?_, ?_⟩
  · intro st hr p hp hor
    exact ((reachable_inv st hr).2 p hp).2.1 hor
  · intro sender mainCol secCol mainNft secNft st mainC mainTok secTok resName
      hc hm hs hr hle hmc hsc hmcol hscol hms hmfresh hsfresh
    obtain ⟨st', hok, hlook, -, -, -, -, -⟩ := combine_success_core sender mainCol
      secCol mainNft secNft st mainC mainTok secTok resName hc hm hs hr hle hmc
      hsc hmcol hscol hms hmfresh hsfresh
    exact ⟨st', _, hok, hlook, rfl, rfl⟩
  · intro sender mainCol mainNft st mainC mainTok resName hc hm hr hle hmc
      hmcol hmfresh
    obtain ⟨st', hok, hlook, -, -⟩ := evolve_success_spec sender mainCol mainNft
      st mainC mainTok resName hc hm hr hle hmc hmcol hmfresh
    exact ⟨st', _, hok, hlook, rfl, rfl⟩
  · intro sender mainCol secCol mainNft secNft st mainC mainTok secTok resName
      hc hm hs hr hle hmc hmfresh
    rw [combine_nft_eq sender mainCol secCol mainNft secNft st mainC mainTok
      secTok resName hc hm hs hr hle]
    have ht1 : alookup (resultMintState st mainCol mainC
        (combineResultToken sender mainCol resName mainTok mainC)).tokens
        mainNft = some mainTok := by
      simp only [resultMintState, alookup]
      rw [if_neg (fun hh => hmfresh hh.symm)]
      exact hm
    rw [burnWithController_no_controller mainNft _ mainTok ht1 hmc]
  · intro sender mainCol secCol mainNft secNft st mainC mainTok secTok resName
      hc hm hs hr hle hmc hsc hmcol hms hmfresh hsfresh
    rw [combine_nft_eq sender mainCol secCol mainNft secNft st mainC mainTok
      secTok resName hc hm hs hr hle]
    have ht1 : alookup (resultMintState st mainCol mainC
        (combineResultToken sender mainCol resName mainTok mainC)).tokens
        mainNft = some mainTok := by
      simp only [resultMintState, alookup]
      rw [if_neg (fun hh => hmfresh hh.symm)]
      exact hm
    have hcol1 : (alookup (resultMintState st mainCol mainC
        (combineResultToken sender mainCol resName mainTok mainC)).collections
        mainTok.collection).isSome = true := by
      simp only [resultMintState]
      exact alookup_aupdate_isSome _ _ _ _ hmcol
    obtain ⟨st2, hb2, htok2, -, -, -, -, -, -⟩ := burnWithController_parts
      mainNft (resultMintState st mainCol mainC
        (combineResultToken sender mainCol resName mainTok mainC))
      mainTok ht1 hmc hcol1
    have ht2 : alookup st2.tokens secNft = some secTok := by
      rw [htok2, alookup_aerase _ _ _ hms.symm]
      simp only [resultMintState, alookup]
      rw [if_neg (fun hh => hsfresh hh.symm)]
      exact hs
    rw [hb2]
    dsimp only
    rw [burnWithController_no_controller secNft st2 secTok ht2 hsc]
  · intro sender mainCol mainNft st mainC mainTok resName hc hm hr hle hmc
      hmfresh
    rw [evolve_nft_eq sender mainCol mainNft st mainC mainTok resName hc hm hr hle]
    have ht1 : alookup (resultMintState st mainCol mainC
        (evolveResultToken sender mainCol resName mainTok mainC)).tokens
        mainNft = some mainTok := by
      simp only [resultMintState, alookup]
      rw [if_neg (fun hh => hmfresh hh.symm)]
      exact hm
    rw [burnWithController_no_controller mainNft _ mainTok ht1 hmc]
  · intro sender mainCol secCol mainNft secNft st mainC mainTok secTok hr0
      hc hm hs hmo hso hms
    have hinv := reachable_inv st hr0
    have hmItem := hinv.2 (mainNft, mainTok) (alookup_some_mem _ _ _ hm)
    have hsItem := hinv.2 (secNft, secTok) (alookup_some_mem _ _ _ hs)
    have hmc : mainTok.hasController = true := hmItem.2.1 hmo
    have hsc : secTok.hasController = true := hsItem.2.1 hso
    have hmcol : (alookup st.collections mainTok.collection).isSome = true :=
      hmItem.2.2
    have hscol : (alookup st.collections secTok.collection).isSome = true :=
      hsItem.2.2
    have hmfresh : mainNft ≠ st.nextAddr := Nat.ne_of_lt hmItem.1
    have hsfresh : secNft ≠ st.nextAddr := Nat.ne_of_lt hsItem.1
    cases hrl : rlookup mainC.combinationRules
        (mainCol, mainTok.name, secCol, secTok.name) with
    | none =>
        simp only [combine_nft, hc, hm, hs, hrl]
        intro hx
        injection hx with hx1
        cases hx1
    | some resName =>
        by_cases hle : mainC.currentSupply + 1 ≤ mainC.maxSupply
        · obtain ⟨st', hok, -, -, -, -, -, -⟩ := combine_success_core sender
            mainCol secCol mainNft secNft st mainC mainTok secTok resName hc hm
            hs hrl hle hmc hsc hmcol hscol hms hmfresh hsfresh
          rw [hok]
          intro hx
          cases hx
        · simp only [combine_nft, hc, hm, hs, hrl, collectionIncrementSupply,
            if_neg hle]
          intro hx
          injection hx with hx1
          cases hx1

/-- A staged collection matching the spec scenario: allowlist window
[0, 100) and public window [200, 300). -/
def demoStagedCollection : Collection :=
  { ownerObj := 1
    name := "W".data
    description := "d".data
    uri := "u".data
    maxSupply := 10
    royalty := none
    currentSupply := 0
    stages := [
      { category := ALLOWLIST_MINT_STAGE_CATEGORY, startTime := 0, endTime := 100,
        allowlist := some [(1000, 3)], maxPerUser := none, mintBalances := [] },
      { category := PUBLIC_MINT_MINT_STAGE_CATEGORY, startTime := 200,
        endTime := 300, allowlist := none, maxPerUser := some 2,
        mintBalances := [] }]
    mint_fee_per_nft_by_stages := [(ALLOWLIST_MINT_STAGE_CATEGORY, 5),
      (PUBLIC_MINT_MINT_STAGE_CATEGORY, 10)]
    nfts := 0
    combinationRules := []
    evolutionRules := [] }

theorem get_active_or_next_stage_spec_witness :
    ∃ s ∈ demoStagedCollection.stages, 150 < s.startTime ∧
      get_active_or_next_mint_stage demoStagedCollection 150 = some s.category ∧
      ∀ t ∈ demoStagedCollection.stages, 150 < t.startTime →
        s.startTime ≤ t.startTime := by
  exact (get_active_or_next_stage_spec demoStagedCollection 150 (by decide)
    (by decide)).2.1 (by decide) (by decide)

theorem reachable_execTrace (ops : List Op) (st : State) (h : Reachable st) :
    Reachable (execTrace ops st) := by
  induction ops generalizing st with
  | nil => exact h
  | cons op rest ih => exact ih (exec op st) (Reachable.step st op h)

theorem mint_sequential_index_and_uri_witness :
    (∃ st' a t c', mint_nft_internal "N".data 1000 2 demoPre4 = .ok (st', a) ∧
      a = demoPre4.nextAddr ∧
      alookup st'.tokens a = some t ∧
      t.uri = "2.json".data ∧
      alookup st'.collections 2 = some c' ∧ c'.nfts = 2) ∧
    (∃ c c', alookup demoPre4.collections 4 = some c ∧
      alookup (exec (Op.mintNft 1000 "Q".data 4 1) demoPre4).collections 4 =
        some c' ∧ c.nfts ≤ c'.nfts) := by
  constructor
  · have hne : (mint_nft_internal "N".data 1000 2 demoPre4).isOk = true := by
      decide
    cases hok : mint_nft_internal "N".data 1000 2 demoPre4 with
    | error e => rw [hok] at hne; cases hne
    | ok p =>
        obtain ⟨st', a⟩ := p
        cases hcc : alookup demoPre4.collections 2 with
        | none => exact absurd hcc (by decide)
        | some c =>
            have hcn : c.nfts = 1 := by
              have h0 : (alookup demoPre4.collections 2).map (fun c => c.nfts) =
                  some 1 := by decide
              rw [hcc] at h0
              exact Option.some.inj h0
            have huri : c.uri = ([] : Str) ++ "collection.json".data := by
              have h0 : (alookup demoPre4.collections 2).map (fun c => c.uri) =
                  some ("collection.json".data) := by decide
              rw [hcc] at h0
              simpa using h0
            obtain ⟨ha, ⟨t, hts, htu⟩, ⟨c', hc', hn⟩⟩ :=
              mint_sequential_index_and_uri.1 "N".data 1000 2 demoPre4 st' a c []
                hcc huri hok
            rw [hcn] at htu hn
            refine ⟨st', a, t, c', rfl, ha, hts, ?_, hc', hn⟩
            rw [htu]
            decide
  · cases hc4 : alookup demoPre4.collections 4 with
    | none => exact absurd hc4 (by decide)
    | some c =>
        cases hc4' : alookup
            (exec (Op.mintNft 1000 "Q".data 4 1) demoPre4).collections 4 with
        | none => exact absurd hc4' (by decide)
        | some c' =>
            refine ⟨c, c', rfl, rfl, ?_⟩
            exact mint_sequential_index_and_uri.2 (Op.mintNft 1000 "Q".data 4 1)
              demoPre4 4 c c'
              (reachable_execTrace _ _ (Reachable.init 0 100)) hc4 hc4'

theorem token_controller_lifecycle_witness :
    ∃ st' t, combine_nft 1000 2 4 5 6 demoPre = .ok (st', demoPre.nextAddr) ∧
      alookup st'.tokens demoPre.nextAddr = some t ∧
      t.hasController = false ∧ t.origin = Origin.combine := by
  exact token_controller_lifecycle.2.1 1000 2 4 5 6 demoPre demoMainC demoMainTok
    demoSecTok "C".data (by decide) (by decide) (by decide) (by decide)
    (by decide) (by decide) (by decide) (by decide) (by decide) (by decide)
    (by decide) (by decide)

end Launchpad
